import Mathlib

/-!
# ipku: client-IP resolution and content negotiation

A shallow embedding of `src/main.go` (package `main` of misterabdul/ipku) and of the
Go standard-library functions its behaviour rests on (`strings.Split`,
`strings.Contains`, `regexp.ReplaceAllString` for the one pattern used,
`net.SplitHostPort`, `net.ParseIP` and `net.IP.String`).

Go strings are byte strings.  They are modelled as lists of characters; every
delimiter the code looks for is ASCII, so on well-formed UTF-8 text the byte-wise
and the character-wise reading of each function agree.
-/

namespace Ipku

/-- A Go `string`. -/
abbrev GoString := List Char

/-! ## Package `strings` -/

/-- The test `s[0:len(p)] == p` used by the substring search. -/
def hasPrefixAt : GoString → GoString → Bool
  | _, [] => true
  | [], _ :: _ => false
  | c :: s, p :: ps => c == p && hasPrefixAt s ps

/-- Go's `strings.Index(s, substr)`: the first position at which `substr` occurs in `s`,
`none` standing for Go's `-1`. -/
def stringsIndex : GoString → GoString → Option Nat
  | [], substr => if hasPrefixAt [] substr then some 0 else none
  | c :: s, substr =>
    if hasPrefixAt (c :: s) substr then some 0
    else (stringsIndex s substr).map (· + 1)

/-- Go's `strings.Contains(s, substr)` is `Index(s, substr) >= 0`. -/
def stringsContains (s substr : GoString) : Bool :=
  (stringsIndex s substr).isSome

/-- Go's `strings.Split(s, sep)` for a one-byte separator: the pieces of `s` between the
occurrences of `sep`, in order; the first piece is `s[:m]` for `m` the first index of
`sep`, and the remaining pieces are the split of `s[m+1:]`.  With no separator in `s`
the result is the one-element list `[s]` (also for the empty string). -/
def stringsSplit (sep : Char) : GoString → List GoString
  | [] => [[]]
  | c :: s =>
    if c = sep then [] :: stringsSplit sep s
    else match stringsSplit sep s with
      | [] => [[c]]
      | piece :: pieces => (c :: piece) :: pieces

/-- Go's `bytealg.IndexByteString(s, c)`: first index of `c` in `s`. -/
def indexByteString : GoString → Char → Option Nat
  | [], _ => none
  | x :: s, c => if x = c then some 0 else (indexByteString s c).map (· + 1)

/-- Go's `bytealg.LastIndexByteString(s, c)`: last index of `c` in `s`. -/
def lastIndexByteString : GoString → Char → Option Nat
  | [], _ => none
  | x :: s, c =>
    match lastIndexByteString s c with
    | some i => some (i + 1)
    | none => if x = c then some 0 else none

/-! ## The pattern `[^a-f0-9\.:]+` -/

/-- Membership in the character class `[a-f0-9\.:]`, whose complement the pattern of
`getIp` matches. -/
def inClass (c : Char) : Bool :=
  ('a'.toNat ≤ c.toNat && c.toNat ≤ 'f'.toNat) ||
  ('0'.toNat ≤ c.toNat && c.toNat ≤ '9'.toNat) ||
  c == '.' || c == ':'

/-- Go's `pattern.ReplaceAllString(src, "")` for `pattern = [^a-f0-9\.:]+`: scanning left
to right, a character of the class is copied, and a character outside it belongs to a
match (a maximal run of such characters), which is replaced by the empty string. -/
def replaceAllString : GoString → GoString
  | [] => []
  | c :: s => if inClass c then c :: replaceAllString s else replaceAllString s

/-! ## `net/http` headers -/

/-- Go's `http.Header`, a `map[string][]string`, as its list of entries. -/
abbrev Header := List (GoString × List GoString)

/-- The map lookup `h[key]`; a missing key gives the nil slice. -/
def Header.values (h : Header) (key : GoString) : List GoString :=
  match h with
  | [] => []
  | (name, vs) :: rest => if name = key then vs else Header.values rest key

/-- Go's `Header.Get(key)` for a key already in canonical form (as "X-Forwarded-For" is):
the first value stored under the key, or "" when there is none. -/
def Header.Get (h : Header) (key : GoString) : GoString :=
  match h.values key with
  | [] => []
  | v :: _ => v

/-- The part of `http.Request` the handlers read. -/
structure Request where
  Header : Header
  RemoteAddr : GoString
  Path : GoString

/-! ## `net.SplitHostPort` -/

/-- Go's `net.AddrError`. -/
structure AddrError where
  Err : GoString
  Addr : GoString
deriving DecidableEq, Repr

/-- Go's `(*AddrError).Error()`. -/
def AddrError.Error (e : AddrError) : GoString :=
  if e.Addr ≠ [] then "address ".toList ++ e.Addr ++ ": ".toList ++ e.Err else e.Err

/-- The constant `missingPort` of `net.SplitHostPort`. -/
def missingPort : GoString := "missing port in address".toList

/-- The constant `tooManyColons` of `net.SplitHostPort`. -/
def tooManyColons : GoString := "too many colons in address".toList

/-- The common tail of `net.SplitHostPort`: no '[' from position `j` on, no ']' from
position `k` on, and the port is what follows the last colon (at `i`). -/
def splitHostPortTail (hostport host : GoString) (i j k : Nat) :
    Except AddrError (GoString × GoString) :=
  if (indexByteString (hostport.drop j) '[').isSome then
    .error ⟨"unexpected '[' in address".toList, hostport⟩
  else if (indexByteString (hostport.drop k) ']').isSome then
    .error ⟨"unexpected ']' in address".toList, hostport⟩
  else
    .ok (host, hostport.drop (i + 1))

/-- Go's `net.SplitHostPort(hostport)`. -/
def SplitHostPort (hostport : GoString) : Except AddrError (GoString × GoString) :=
  match lastIndexByteString hostport ':' with
  | none => .error ⟨missingPort, hostport⟩
  | some i =>
    if hostport.head? = some '[' then
      match indexByteString hostport ']' with
      | none => .error ⟨"missing ']' in address".toList, hostport⟩
      | some e =>
        if e + 1 = hostport.length then .error ⟨missingPort, hostport⟩
        else if e + 1 = i then
          splitHostPortTail hostport ((hostport.take e).drop 1) i 1 (e + 1)
        else if (hostport.drop (e + 1)).head? = some ':' then
          .error ⟨tooManyColons, hostport⟩
        else .error ⟨missingPort, hostport⟩
    else
      let host := hostport.take i
      if (indexByteString host ':').isSome then .error ⟨tooManyColons, hostport⟩
      else splitHostPortTail hostport host i 0 0

/-! ## `net/netip.ParseAddr` and `net.ParseIP` -/

/-- Whether a byte is an ASCII decimal digit. -/
def isDigit (c : Char) : Bool := '0'.toNat ≤ c.toNat && c.toNat ≤ '9'.toNat

/-- The octet loop of `parseIPv4Fields`, run over the rest of the field string.
`atStart` is `i == 0`, `prev` is `s[i-1]`, `fields` holds `fields[0:pos]`.  The result
is the four octets. -/
def parseIPv4FieldsLoop :
    GoString → Bool → Char → Nat → Nat → List Nat → Option (List Nat)
  | [], _, _, val, _, fields =>
    if fields.length < 3 then none                     -- IPv4 address too short
    else some (fields ++ [val % 256])
  | c :: rest, atStart, prev, val, digLen, fields =>
    if isDigit c then
      if digLen = 1 ∧ val = 0 then none                -- octet with leading zero
      else
        let val := val * 10 + (c.toNat - '0'.toNat)
        if val > 255 then none                         -- field has value >255
        else parseIPv4FieldsLoop rest false c val (digLen + 1) fields
    else if c = '.' then
      if atStart ∨ rest = [] ∨ prev = '.' then none    -- field must have a digit
      else if fields.length = 3 then none              -- IPv4 address too long
      else parseIPv4FieldsLoop rest false c 0 0 (fields ++ [val % 256])
    else none                                          -- unexpected character

/-- Go's `parseIPv4Fields(in, off, end, fields)` on `s = in[off:end]`. -/
def parseIPv4Fields (s : GoString) : Option (List Nat) :=
  parseIPv4FieldsLoop s true '.' 0 0 []

/-- Value of a hexadecimal digit, as the three range tests of `parseIPv6` compute
it; `none` when the byte is no hexadecimal digit. -/
def hexVal (c : Char) : Option Nat :=
  if '0'.toNat ≤ c.toNat ∧ c.toNat ≤ '9'.toNat then some (c.toNat - '0'.toNat)
  else if 'a'.toNat ≤ c.toNat ∧ c.toNat ≤ 'f'.toNat then some (c.toNat - 'a'.toNat + 10)
  else if 'A'.toNat ≤ c.toNat ∧ c.toNat ≤ 'F'.toNat then some (c.toNat - 'A'.toNat + 10)
  else none

/-- The inlined hex-number loop of `parseIPv6`, from offset `off` with accumulator
`acc` (a `uint32`).  The result is the final `off`, the final `acc` and `s[off:]`;
`none` is one of the two error returns of the loop. -/
def hexLoop : GoString → Nat → Nat → Option (Nat × Nat × GoString)
  | [], off, acc => some (off, acc, [])
  | c :: s, off, acc =>
    match hexVal c with
    | none => some (off, acc, c :: s)
    | some d =>
      let acc := (acc * 16 % 2 ^ 32 + d) % 2 ^ 32
      if off > 3 then none                             -- more than 4 digits in group
      else if acc > 65535 then none                    -- field has value >=2^16
      else hexLoop s (off + 1) acc

/-- The loop `for i < 16` of `parseIPv6`.  The bytes written so far are
`ip = ip[0:i]` (the rest of the array is still zero), so `i` is `ip.length`;
`ellipsis` is `none` for Go's `-1`.  The first argument bounds the number of
iterations: each iteration that continues adds 2 to `i`, so 8 are enough.  The
result is the state `(s, ip, ellipsis)` on leaving the loop, `none` an error return. -/
def parseIPv6Loop :
    Nat → GoString → List Nat → Option Nat → Option (GoString × List Nat × Option Nat)
  | 0, s, ip, ellipsis => some (s, ip, ellipsis)
  | n + 1, s, ip, ellipsis =>
    if ¬ ip.length < 16 then some (s, ip, ellipsis)
    else
      match hexLoop s 0 0 with
      | none => none
      | some (off, acc, rest) =>
        if off = 0 then none                           -- field without a digit
        else if rest.head? = some '.' then
          -- trailing IPv4
          if ellipsis = none ∧ ip.length ≠ 12 then none
          else if ip.length + 4 > 16 then none
          else
            match parseIPv4Fields s with
            | none => none
            | some fields => some ([], ip ++ fields, ellipsis)
        else
          let ip := ip ++ [acc / 256 % 256, acc % 256]
          match rest with
          | [] => some ([], ip, ellipsis)              -- end of string
          | c :: s1 =>
            if c ≠ ':' then none                       -- unexpected character
            else
              match s1 with
              | [] => none                             -- colon must be followed
              | c1 :: s2 =>
                if c1 = ':' then
                  if ellipsis.isSome then none         -- multiple :: in address
                  else
                    match s2 with
                    | [] => some ([], ip, some ip.length)
                    | _ :: _ => parseIPv6Loop n s2 ip (some ip.length)
                else parseIPv6Loop n s1 ip ellipsis

/-- What `parseIPv6` does after its loop: the whole string must have been used, and a
short address is completed by moving the bytes after the ellipsis to the end and
clearing the gap. -/
def parseIPv6Finish (st : GoString × List Nat × Option Nat) : Option (List Nat) :=
  match st with
  | (s, ip, ellipsis) =>
    if s ≠ [] then none                                -- trailing garbage
    else if ip.length < 16 then
      match ellipsis with
      | none => none                                   -- address string too short
      | some e => some (ip.take e ++ List.replicate (16 - ip.length) 0 ++ ip.drop e)
    else if ellipsis.isSome then none                  -- :: must expand to a field
    else some ip

/-- A `netip.Addr`: a 4-byte address, or a 16-byte address with its zone. -/
inductive Addr where
  | v4 (fields : List Nat)
  | v6 (ip : List Nat) (zone : GoString)
deriving DecidableEq, Repr

/-- The start of `parseIPv6`: the zone is split off at the first '%'; an empty zone
after a '%' is an error.  The result is the address text and the zone. -/
def splitZone (input : GoString) : Option (GoString × GoString) :=
  match indexByteString input '%' with
  | none => some (input, [])
  | some i =>
    if input.drop (i + 1) = [] then none               -- zone must be non-empty
    else some (input.take i, input.drop (i + 1))

/-- The body of `parseIPv6` on the address text `s` (the zone split off): the leading
ellipsis, the loop, and the completion of a short address. -/
def parseIPv6Addr (s : GoString) : Option (List Nat) :=
  if s.take 2 = [':', ':'] then
    let s2 := s.drop 2
    if s2 = [] then some (List.replicate 16 0)         -- IPv6Unspecified
    else (parseIPv6Loop 8 s2 [] (some 0)).bind parseIPv6Finish
  else (parseIPv6Loop 8 s [] none).bind parseIPv6Finish

/-- Go's `netip.parseIPv6(in)`. -/
def parseIPv6 (input : GoString) : Option Addr :=
  match splitZone input with
  | none => none
  | some (s, zone) => (parseIPv6Addr s).map (fun ip => Addr.v6 ip zone)

/-- Go's `netip.parseIPv4(s)`. -/
def parseIPv4 (s : GoString) : Option Addr :=
  (parseIPv4Fields s).map Addr.v4

/-- The scan of `netip.ParseAddr`: the first '.', ':' or '%' in the string decides how
the whole string `s` is parsed. -/
def parseAddrScan (s : GoString) : GoString → Option Addr
  | [] => none                                         -- unable to parse IP
  | c :: rest =>
    if c = '.' then parseIPv4 s
    else if c = ':' then parseIPv6 s
    else if c = '%' then none                          -- missing IPv6 address
    else parseAddrScan s rest

/-- Go's `netip.ParseAddr(s)`. -/
def ParseAddr (s : GoString) : Option Addr := parseAddrScan s s

/-- Go's `Addr.Zone()`. -/
def Addr.Zone : Addr → GoString
  | .v4 _ => []
  | .v6 _ zone => zone

/-- Go's `Addr.As16()`: a 4-byte address becomes the IPv4-mapped IPv6 address. -/
def Addr.As16 : Addr → List Nat
  | .v4 fields => List.replicate 10 0 ++ [255, 255] ++ fields
  | .v6 ip _ => ip

/-- Go's `net.ParseIP(s)`: the 16-byte form of the address, `none` for Go's `nil`. -/
def ParseIP (s : GoString) : Option (List Nat) :=
  match ParseAddr s with
  | none => none
  | some a => if a.Zone ≠ [] then none else some a.As16

/-! ## `net.IP.String` -/

/-- The table `digits` of package `netip`. -/
def digits : GoString := "0123456789abcdef".toList

/-- The byte `digits[k]`. -/
def digit (k : Nat) : Char := digits.getD k '0'

/-- Go's `appendDecimal(b, x)` without the prefix `b`. -/
def appendDecimal (x : Nat) : GoString :=
  (if x ≥ 100 then [digit (x / 100)] else []) ++
  (if x ≥ 10 then [digit (x / 10 % 10)] else []) ++
  [digit (x % 10)]

/-- Go's `appendHex(b, x)` without the prefix `b`. -/
def appendHex (x : Nat) : GoString :=
  (if x ≥ 0x1000 then [digit (x / 4096)] else []) ++
  (if x ≥ 0x100 then [digit (x / 256 % 16)] else []) ++
  (if x ≥ 0x10 then [digit (x / 16 % 16)] else []) ++
  [digit (x % 16)]

/-- Go's `Addr.string4()` for the four octets `p4`. -/
def string4 (p4 : List Nat) : GoString :=
  appendDecimal (p4.getD 0 0) ++ '.' :: appendDecimal (p4.getD 1 0) ++
  '.' :: appendDecimal (p4.getD 2 0) ++ '.' :: appendDecimal (p4.getD 3 0)

/-- Go's `Addr.v6u16(j)`: the `j`-th 16-bit group of a 16-byte address. -/
def v6u16 (ip : List Nat) (j : Nat) : Nat :=
  ip.getD (2 * j) 0 * 256 + ip.getD (2 * j + 1) 0

/-- The inner loop `for j < 8 && ip.v6u16(j) == 0 { j++ }` of `appendTo6`, bounded by
the number of groups. -/
def zeroRunEnd (ip : List Nat) : Nat → Nat → Nat
  | 0, j => j
  | n + 1, j => if j < 8 ∧ v6u16 ip j = 0 then zeroRunEnd ip n (j + 1) else j

/-- One iteration of the first loop of `appendTo6`, on the pair
`(zeroStart, zeroEnd)` of `uint8` values. -/
def zeroSearchStep (ip : List Nat) (z : Nat × Nat) (i : Nat) : Nat × Nat :=
  let j := zeroRunEnd ip 8 i
  let l := (j + 256 - i) % 256
  if l ≥ 2 ∧ l > (z.2 + 256 - z.1) % 256 then (i, j) else z

/-- The first loop of `appendTo6`: the first longest run of at least two zero
groups, `(255, 255)` when there is none. -/
def zeroSearch (ip : List Nat) : Nat × Nat :=
  (List.range 8).foldl (zeroSearchStep ip) (255, 255)

/-- The second loop of `appendTo6`, from group `i` with output `ret` so far; the
first argument bounds the number of iterations (at most 8). -/
def appendTo6Loop (ip : List Nat) (zeroStart zeroEnd : Nat) :
    Nat → Nat → GoString → GoString
  | 0, _, ret => ret
  | n + 1, i, ret =>
    if ¬ i < 8 then ret
    else if i = zeroStart then
      let ret := ret ++ [':', ':']
      let i := zeroEnd
      if i ≥ 8 then ret
      else appendTo6Loop ip zeroStart zeroEnd n (i + 1) (ret ++ appendHex (v6u16 ip i))
    else
      let ret := if i > 0 then ret ++ [':'] else ret
      appendTo6Loop ip zeroStart zeroEnd n (i + 1) (ret ++ appendHex (v6u16 ip i))

/-- Go's `Addr.string6()` for an address without zone. -/
def string6 (ip : List Nat) : GoString :=
  let z := zeroSearch ip
  appendTo6Loop ip z.1 z.2 8 0 []

/-- Go's `IP.To4()` on a 16-byte address: the last four bytes when the address is
IPv4-mapped. -/
def To4 (ip : List Nat) : Option (List Nat) :=
  if ip.take 10 = List.replicate 10 0 ∧ ip.getD 10 0 = 255 ∧ ip.getD 11 0 = 255 then
    some (ip.drop 12)
  else none

/-- Go's `IP.String()` on a 16-byte address. -/
def IPString (ip : List Nat) : GoString :=
  match To4 ip with
  | some p4 => string4 p4
  | none => string6 ip

/-! ## `main.go` -/

/-- A Go `error` value as `getIp` can return it: the `*net.AddrError` of
`net.SplitHostPort`, or the result of `errors.New`. -/
inductive GoError where
  | addrError (e : AddrError)
  | errorString (s : GoString)
deriving DecidableEq, Repr

/-- The method `Error()`. -/
def GoError.Error : GoError → GoString
  | .addrError e => e.Error
  | .errorString s => s

/-- The forwarded-for candidate of `getIp`: lines 144-155, the value of `ip` before
the test `ip == ""`.  The pattern is a constant that compiles, so the error return of
lines 146-148 is never taken. -/
def forwardedCandidate (behindProxy : Bool) (req : Request) : GoString :=
  let forwardedIps := stringsSplit ',' (req.Header.Get "X-Forwarded-For".toList)
  if forwardedIps.length > 0 then
    if behindProxy ∧ forwardedIps.length > 1 then
      replaceAllString (forwardedIps.getD (forwardedIps.length - 2) [])
    else
      replaceAllString (forwardedIps.getD (forwardedIps.length - 1) [])
  else []

/-- Lines 162-169 of `getIp`: parse the candidate and render it. -/
def resolveCandidate (ip : GoString) : GoString × Option GoError :=
  match ParseIP ip with
  | some netIP =>
    let ip := IPString netIP
    if ip ≠ "::1".toList then (ip, none)
    else ("127.0.0.1".toList, none)
  | none => ([], some (.errorString "IP not found".toList))

/-- Function `getIp(req)`, with the flag `*flags.BehindProxy` as a parameter.  The result is
the pair `(ip, err)`, `err = none` standing for `nil`. -/
def getIp (behindProxy : Bool) (req : Request) : GoString × Option GoError :=
  let ip := forwardedCandidate behindProxy req
  if ip = [] then
    match SplitHostPort req.RemoteAddr with
    | .error e => ([], some (.addrError e))
    | .ok (host, _) => resolveCandidate host
  else resolveCandidate ip

/-- Function `isCurl(req)`: the loop over the header map, skipping every name but
"User-Agent". -/
def isCurl (req : Request) : Bool :=
  req.Header.any fun entry =>
    if entry.1 ≠ "User-Agent".toList then false
    else entry.2.any fun header => stringsContains header "curl".toList

/-- Function `wantsJson(req)`: the loop over the header map, skipping every name but
"Accept". -/
def wantsJson (req : Request) : Bool :=
  req.Header.any fun entry =>
    if entry.1 ≠ "Accept".toList then false
    else entry.2.any fun header => stringsContains header "application/json".toList

/-- The browser User-Agent value of `TestIsCurl`. -/
def mozilla : GoString :=
  "Mozilla/5.0 (X11; Linux x86_64; rv:58.0) Gecko/20100101 Firefox/58.0".toList

/-! ## Values used in the statements -/

/-- The IPv6 loopback address, 16 bytes. -/
def loopback6 : List Nat := List.replicate 15 0 ++ [1]

/-- The error `errors.New("IP not found")`. -/
def ipNotFound : GoError := .errorString "IP not found".toList

/-- The outcome of `getIp` for a parsed address: its text, with "::1" replaced. -/
def normalised (ip : List Nat) : GoString :=
  if IPString ip = "::1".toList then "127.0.0.1".toList else IPString ip

/-- The request of the counterexample to C3: two forwarded-for elements. -/
def twoElementRequest : Request :=
  { Header := [("X-Forwarded-For".toList, ["10.0.0.1, 192.168.0.1".toList])],
    RemoteAddr := "172.17.0.4:80".toList,
    Path := [] }

/-- A request whose forwarded-for element spells the IPv6 loopback in full. -/
def loopbackRequest : Request :=
  { Header := [("X-Forwarded-For".toList, ["0:0:0:0:0:0:0:1".toList])],
    RemoteAddr := "[::1]:80".toList, Path := [] }

/-- A request from the IPv6 loopback with no forwarded-for header. -/
def loopbackRemoteRequest : Request :=
  { Header := [], RemoteAddr := "[::1]:80".toList, Path := [] }

/-- The characters an address text accepted by `ParseIP` is made of. -/
def ipChar (c : Char) : Prop := (hexVal c).isSome = true ∨ c = ':' ∨ c = '.'

/-- The transport address of a host text: bracketed when the host holds a colon. -/
def joinHostPort (H P : GoString) : GoString :=
  (if ':' ∈ H then '[' :: H ++ [']'] else H) ++ ':' :: P

/-- A 16-byte address: sixteen values, each a byte. -/
def wfIP (ip : List Nat) : Prop := ip.length = 16 ∧ ∀ b ∈ ip, b < 256

/-- The text `:g_i:g_(i+1):...` of `m` groups from group `i` on, in lower-case
hexadecimal without leading zeros. -/
def colonHex (ip : List Nat) : Nat → Nat → GoString
  | _, 0 => []
  | i, m + 1 => ':' :: appendHex (v6u16 ip i) ++ colonHex ip (i + 1) m

/-- What the first loop of `appendTo6` maintains: no run chosen yet, or a run of at
least two zero groups. -/
def zeroRun (ip : List Nat) (z : Nat × Nat) : Prop :=
  z = (255, 255) ∨
    (z.1 + 2 ≤ z.2 ∧ z.2 ≤ 8 ∧ ∀ k, z.1 ≤ k → k < z.2 → v6u16 ip k = 0)

/-- The first request of `TestGetIp`: no forwarded-for header. -/
def plainRemoteRequest : Request :=
  { Header := [], RemoteAddr := "172.17.0.4:80".toList, Path := [] }

/-- The third request of `TestGetIp`: a bracketed IPv6 host written with a leading
zero in a group. -/
def ipv6RemoteRequest : Request :=
  { Header := [], RemoteAddr := "[2001:0db8::1001]:80".toList, Path := [] }

/-- A request whose forwarded-for header names the IPv6 loopback after the transport
address, as the third forwarded case of `TestGetIp` does. -/
def forwardedLoopbackRequest : Request :=
  { Header := [("X-Forwarded-For".toList, ["[2001:0db8::1001]:80, ::1".toList])],
    RemoteAddr := "[2001:0db8::1001]:80".toList, Path := [] }

/-- The second forwarded case of `TestGetIp`. -/
def forwardedRequest : Request :=
  { Header := [("X-Forwarded-For".toList, ["172.17.0.4:80, 192.168.0.1".toList])],
    RemoteAddr := "172.17.0.4:80".toList, Path := [] }

/-! ## `fmt` and `encoding/json` -/

/-- Go's `fmt.Sprintf(format, args...)` for string arguments and formats whose only
verb is `%s`, which is all `main.go` uses: each `%s` is replaced by the next argument.
A missing argument prints as `%!s(MISSING)` and left-over arguments as
`%!(EXTRA string=..., ...)`; every other byte of the format is copied. -/
def Sprintf : GoString → List GoString → GoString
  | [], [] => []
  | [], arg :: args =>
    "%!(EXTRA ".toList ++
      ", ".toList.intercalate ((arg :: args).map fun a => "string=".toList ++ a) ++ [')']
  | '%' :: 's' :: format, [] => "%!s(MISSING)".toList ++ Sprintf format []
  | '%' :: 's' :: format, arg :: args => arg ++ Sprintf format args
  | c :: format, args => c :: Sprintf format args

/-- The table `htmlSafeSet` of `encoding/json`: the ASCII bytes that are written to
a JSON string as they are when HTML escaping is on (the default of an `Encoder`). -/
def htmlSafe (c : Char) : Bool :=
  0x20 ≤ c.toNat && c.toNat < 0x80 &&
    c != '"' && c != '&' && c != '<' && c != '>' && c != '\\'

/-- The byte `hex[k]` of `encoding/json`. -/
def jsonHex (k : Nat) : Char := "0123456789abcdef".toList.getD k '0'

/-- What `appendString` of `encoding/json` writes for one character of the source
string, with HTML escaping on. -/
def jsonEscape (c : Char) : GoString :=
  if c.toNat < 0x80 then
    if htmlSafe c then [c]
    else if c = '\\' ∨ c = '"' then ['\\', c]
    else if c = Char.ofNat 8 then ['\\', 'b']
    else if c = Char.ofNat 12 then ['\\', 'f']
    else if c = '\n' then ['\\', 'n']
    else if c = '\r' then ['\\', 'r']
    else if c = '\t' then ['\\', 't']
    else ['\\', 'u', '0', '0', jsonHex (c.toNat / 16), jsonHex (c.toNat % 16)]
  else if c.toNat = 0x2028 ∨ c.toNat = 0x2029 then
    "\\u202".toList ++ [jsonHex (c.toNat % 16)]
  else [c]

/-- Go's `appendString(dst, src, escapeHTML = true)` of `encoding/json` without the
prefix `dst`: the JSON string literal for `src`. -/
def appendString (src : GoString) : GoString :=
  '"' :: (src.flatMap jsonEscape) ++ ['"']

/-- A value stored in the map type `h` of `main.go` (`map[string]interface{}`): a
string, or a nested map whose values are strings. -/
inductive JsonValue where
  | str (s : GoString)
  | obj (members : List (GoString × GoString))
deriving DecidableEq, Repr

/-- The key order of `strings.Compare`: byte-wise lexicographic, `a ≤ b`. -/
def keyLE : GoString → GoString → Bool
  | [], _ => true
  | _ :: _, [] => false
  | a :: as, b :: bs => a.toNat < b.toNat || (a.toNat == b.toNat && keyLE as bs)

/-- Insertion of a map entry into a list of entries sorted by key. -/
def insertByKey {α : Type} (entry : GoString × α) : List (GoString × α) → List (GoString × α)
  | [] => [entry]
  | e :: rest => if keyLE entry.1 e.1 then entry :: e :: rest else e :: insertByKey entry rest

/-- The entries of a map in the order the encoder writes them: sorted by key. -/
def sortByKey {α : Type} (m : List (GoString × α)) : List (GoString × α) :=
  m.foldr insertByKey []

/-- The members `"key":value` of a JSON object, separated by commas. -/
def joinMembers : List GoString → GoString
  | [] => []
  | [m] => m
  | m :: rest => m ++ ',' :: joinMembers rest

/-- The encoding of a map of strings: `mapEncoder.encode` with string values. -/
def encodeStringMap (m : List (GoString × GoString)) : GoString :=
  '{' :: joinMembers ((sortByKey m).map fun e => appendString e.1 ++ ':' :: appendString e.2)
    ++ ['}']

/-- The encoding of a value of the map type `h`. -/
def encodeValue : JsonValue → GoString
  | .str s => appendString s
  | .obj members => encodeStringMap members

/-- The encoding of a map of type `h`: `mapEncoder.encode`, keys in sorted order. -/
def encodeMap (m : List (GoString × JsonValue)) : GoString :=
  '{' :: joinMembers ((sortByKey m).map fun e => appendString e.1 ++ ':' :: encodeValue e.2)
    ++ ['}']

/-- Go's `(*json.Encoder).Encode(v)` for a map `v` of type `h`: what is written to the
underlying writer, the encoding followed by a newline.  Such a map always encodes, so
the error return is never taken. -/
def EncoderEncode (m : List (GoString × JsonValue)) : GoString :=
  encodeMap m ++ ['\n']

/-! ## `net/http` responses -/

/-- The state of an `http.ResponseWriter` as a handler sees it: the status code once
it has been written, and the body written so far. -/
structure ResponseWriter where
  code : Option Nat
  body : GoString
deriving DecidableEq, Repr

/-- A fresh writer, as `httptest.NewRecorder()` gives. -/
def newRecorder : ResponseWriter := { code := none, body := [] }

/-- Go's `WriteHeader(code)`: the first status code written stands. -/
def ResponseWriter.WriteHeader (w : ResponseWriter) (code : Nat) : ResponseWriter :=
  if w.code.isSome then w else { w with code := some code }

/-- Go's `Write(b)`: a write before any `WriteHeader` sends status 200 first. -/
def ResponseWriter.Write (w : ResponseWriter) (b : GoString) : ResponseWriter :=
  { code := some (w.code.getD 200), body := w.body ++ b }

/-- The status of the response: 200 when the handler never wrote one. -/
def ResponseWriter.status (w : ResponseWriter) : Nat := w.code.getD 200

/-- Go's `http.NotFound(w, r)`, that is `http.Error(w, "404 page not found", 404)`:
the status, then the message and a newline. -/
def NotFound (w : ResponseWriter) : ResponseWriter :=
  (w.WriteHeader 404).Write ("404 page not found".toList ++ ['\n'])

/-! ## The handlers of `main.go` -/

/-- The type `metainfo_t`. -/
structure metainfo_t where
  Name : GoString
  Description : GoString
  Version : GoString
  Author : GoString
  AuthorEmail : GoString
  Repo : GoString

/-- The variable `ingfo`. -/
def ingfo : metainfo_t :=
  { Name := "IPKU".toList,
    Description := "Get the public IP address of the client.".toList,
    Version := "1.0.0".toList,
    Author := "Abdul Pasaribu".toList,
    AuthorEmail := "mail@misterabdul.moe".toList,
    Repo := "https://github.com/misterabdul/ipku".toList }


/-- The format of `getHtmlDefault` up to the verb for the title. -/
def htmlHead : GoString :=
  ("<!DOCTYPE html>\n" ++
   "<html>\n" ++
   "\t<head>\n" ++
   "\t\t<meta name=\"viewport\" content=\"width=device-width, initial-scale=1.0\">\n" ++
   "\t\t<title>").toList

/-- The format of `getHtmlDefault` between the verb for the title and the verb for
the content. -/
def htmlMiddle : GoString :=
  ("</title>\n" ++
   "\t\t<style>\n" ++
   "\t\t\t* \x7b\n" ++
   "\t\t\t\tfont-family: sans-serif;\n" ++
   "\t\t\t\tfont-size: 1.2rem;\n" ++
   "\t\t\t\x7d\n" ++
   "\t\t\t@media (prefers-color-scheme: dark) \x7b\n" ++
   "\t\t\t    body \x7b\n" ++
   "\t\t\t        background-color: #121212;\n" ++
   "\t\t\t        color: white;\n" ++
   "\t\t\t    \x7d\n" ++
   "\t\t\t\ttable, th, td \x7b\n" ++
   "\t\t\t\t\tborder: 5px solid white;\n" ++
   "\t\t\t\t\tborder-collapse: collapse;\n" ++
   "\t\t\t\t\x7d\n" ++
   "\t\t\t\x7d\n" ++
   "\t\t\t@media (prefers-color-scheme: light) \x7b\n" ++
   "\t\t\t\ttable, th, td \x7b\n" ++
   "\t\t\t\t\tborder: 5px solid black;\n" ++
   "\t\t\t\t\tborder-collapse: collapse;\n" ++
   "\t\t\t\t\x7d\n" ++
   "\t\t\t\x7d\n" ++
   "\t\t\tmain \x7b\n" ++
   "\t\t\t\tdisplay: grid;\n" ++
   "\t\t\t\tplace-items: center;\n" ++
   "\t\t\t\tmin-height: 100vh;\n" ++
   "\t\t\t\x7d\n" ++
   "\t\t\tth, td \x7b\n" ++
   "\t\t\t\tpadding: 0.5rem;\n" ++
   "\t\t\t\ttext-align: center;\n" ++
   "\t\t\t\x7d\n" ++
   "\t\t</style>\n" ++
   "\t</head>\n" ++
   "\t<body>\n" ++
   "\t\t<main>\n" ++
   "\t\t\t<section>").toList

/-- The format of `getHtmlDefault` after the verb for the content. -/
def htmlTail : GoString :=
  ("</section>\n" ++
   "\t\t</main>\n" ++
   "\t</body>\n" ++
   "</html>").toList

/-- The format of `renderIpHtmlResponse` up to its verb. -/
def ipTableHead : GoString :=
  ("<table>\n" ++
   "\t\t\t<tr><th>IP Address</th></tr>\n" ++
   "\t\t\t<tr><td>").toList

/-- The format of `renderIpHtmlResponse` after its verb. -/
def ipTableTail : GoString :=
  ("</td><tr>\n" ++
   "\t\t</table>").toList

/-- The format of `renderAboutHtmlResponse`, with its seven verbs. -/
def aboutTableFormat : GoString :=
  ("<table>\n" ++
   "\t\t\t<tr><th>Name</th><td>%s</td></tr>\n" ++
   "\t\t\t<tr><th>Description</th><td>%s</td></tr>\n" ++
   "\t\t\t<tr><th>Version</th><td>%s</td></tr>\n" ++
   "\t\t\t<tr><th>Author</th><td>%s &lt;%s&gt;</td></tr>\n" ++
   "\t\t\t<tr><th>Repository</th><td><a href=\"%s\">%s</a></td></tr>\n" ++
   "\t\t</table>").toList

/-- Function `getHtmlDefault(title, content)`. -/
def getHtmlDefault (title content : GoString) : GoString :=
  Sprintf (htmlHead ++ "%s".toList ++ htmlMiddle ++ "%s".toList ++ htmlTail) [title, content]

/-- Function `renderIpHtmlResponse(res, ip)`. -/
def renderIpHtmlResponse (res : ResponseWriter) (ip : GoString) : ResponseWriter :=
  res.Write (getHtmlDefault "IPKU".toList
    (Sprintf (ipTableHead ++ "%s".toList ++ ipTableTail) [ip]))

/-- Function `renderAboutHtmlResponse(res, metainfo)`. -/
def renderAboutHtmlResponse (res : ResponseWriter) (metainfo : metainfo_t) : ResponseWriter :=
  res.Write (getHtmlDefault "About IPKU".toList
    (Sprintf aboutTableFormat
      [metainfo.Name, metainfo.Description, metainfo.Version, metainfo.Author,
        metainfo.AuthorEmail, metainfo.Repo, metainfo.Repo]))

/-- The format of the plain-text answer of `handleAbout`. -/
def aboutTextFormat : GoString :=
  ("Name        : %s\n" ++
   "Description : %s\n" ++
   "Version     : %s\n" ++
   "Author      : %s <%s>\n" ++
   "Repository  : %s\n").toList

/-- Function `handleIndex(res, req)`, with the flag `*flags.BehindProxy` as a parameter;
the result is the writer after the handler has returned.  The calls of `log.Println`
write to the log only and are left out. -/
def handleIndex (behindProxy : Bool) (res : ResponseWriter) (req : Request) :
    ResponseWriter :=
  if req.Path ≠ [] ∧ req.Path ≠ "/".toList then NotFound res
  else
    match getIp behindProxy req with
    | (_, some err) =>
      (res.WriteHeader 500).Write (Sprintf "Error: %s.\n".toList [err.Error])
    | (ip, none) =>
      if isCurl req then res.Write (Sprintf "%s\n".toList [ip])
      else if wantsJson req then
        res.Write (EncoderEncode [("ipAddress".toList, .str ip)])
      else renderIpHtmlResponse res ip

/-- Function `handleAbout(res, req)`; the result is the writer after the handler has
returned. -/
def handleAbout (res : ResponseWriter) (req : Request) : ResponseWriter :=
  if req.Path ≠ "/about".toList then NotFound res
  else if isCurl req then
    res.Write (Sprintf aboutTextFormat
      [ingfo.Name, ingfo.Description, ingfo.Version, ingfo.Author, ingfo.AuthorEmail,
        ingfo.Repo])
  else if wantsJson req then
    res.Write (EncoderEncode
      [("name".toList, .str ingfo.Name),
       ("description".toList, .str ingfo.Description),
       ("version".toList, .str ingfo.Version),
       ("author".toList, .obj [("name".toList, ingfo.Author), ("email".toList, ingfo.AuthorEmail)]),
       ("repository".toList, .str ingfo.Repo)])
  else renderAboutHtmlResponse res ingfo


/-! ## Requests used in the statements on the handlers -/

/-- The third request of `TestHandleIndex`: curl asking for the index. -/
def curlIndexRequest : Request :=
  { Header := [("User-Agent".toList, ["curl/8.2.1".toList])],
    RemoteAddr := "127.0.0.1:80".toList, Path := [] }

/-- A curl request for the index that also accepts JSON. -/
def curlJsonIndexRequest : Request :=
  { Header := [("User-Agent".toList, ["curl/8.2.1".toList]),
      ("Accept".toList, ["application/json".toList])],
    RemoteAddr := "127.0.0.1:80".toList, Path := "/".toList }

/-- The fourth request of `TestHandleIndex`: a client that accepts JSON. -/
def jsonIndexRequest : Request :=
  { Header := [("Accept".toList, ["application/json".toList])],
    RemoteAddr := "127.0.0.1:80".toList, Path := [] }

/-- The second request of `TestHandleIndex`: no header at all. -/
def browserIndexRequest : Request :=
  { Header := [], RemoteAddr := "127.0.0.1:80".toList, Path := [] }

/-- A request for the index whose transport address has no port. -/
def noPortIndexRequest : Request :=
  { Header := [("User-Agent".toList, ["curl/8.2.1".toList])],
    RemoteAddr := "127.0.0.1".toList, Path := "/".toList }

/-- The third request of `TestHandleAbout`: curl asking for the about page. -/
def curlAboutRequest : Request :=
  { Header := [("User-Agent".toList, ["curl/8.2.1".toList])],
    RemoteAddr := "192.0.2.1:1234".toList, Path := "/about".toList }

/-- A request whose forwarded-for element is no address although the transport
address is one. -/
def badForwardedRequest : Request :=
  { Header := [("X-Forwarded-For".toList, ["abc".toList])],
    RemoteAddr := "127.0.0.1:80".toList, Path := [] }

/-- The five lines of the plain-text about page. -/
def aboutText : GoString :=
  ("Name        : IPKU\n" ++
   "Description : Get the public IP address of the client.\n" ++
   "Version     : 1.0.0\n" ++
   "Author      : Abdul Pasaribu <mail@misterabdul.moe>\n" ++
   "Repository  : https://github.com/misterabdul/ipku\n").toList

/-- The characters that would need escaping in HTML, JSON or a text line. -/
def unsafeChars : List Char := ['<', '>', '&', '"', Char.ofNat 39, '\\', '\n']

/-! ## Lemmas on the string functions -/

theorem hasPrefixAt_iff (s p : GoString) : hasPrefixAt s p = true ↔ p <+: s := by
  induction s generalizing p with
  | nil => cases p <;> simp [hasPrefixAt]
  | cons c s ih =>
    cases p with
    | nil => simp [hasPrefixAt]
    | cons q ps =>
      simp only [hasPrefixAt, Bool.and_eq_true, beq_iff_eq, ih, List.cons_prefix_cons]
      constructor
      · rintro ⟨h1, h2⟩; exact ⟨h1.symm, h2⟩
      · rintro ⟨h1, h2⟩; exact ⟨h1.symm, h2⟩

theorem stringsIndex_isSome_iff (s p : GoString) :
    (stringsIndex s p).isSome = true ↔ p <:+: s := by
  induction s with
  | nil =>
    simp only [stringsIndex]
    split
    · rename_i h
      simp only [Option.isSome_some, true_iff]
      exact ((hasPrefixAt_iff _ _).1 h).isInfix
    · rename_i h
      simp only [Option.isSome_none, Bool.false_eq_true, false_iff]
      intro hi
      apply h
      rw [hasPrefixAt_iff]
      rw [List.infix_nil] at hi
      simp [hi]
  | cons c s ih =>
    simp only [stringsIndex]
    split
    · rename_i h
      simp only [Option.isSome_some, true_iff]
      exact ((hasPrefixAt_iff _ _).1 h).isInfix
    · rename_i h
      have hm : (Option.map (fun x => x + 1) (stringsIndex s p)).isSome
          = (stringsIndex s p).isSome := by
        cases stringsIndex s p <;> rfl
      rw [hm, ih, List.infix_cons_iff]
      constructor
      · intro hh; exact Or.inr hh
      · rintro (hh | hh)
        · exact absurd ((hasPrefixAt_iff _ _).2 hh) h
        · exact hh

theorem stringsContains_iff (s p : GoString) : stringsContains s p = true ↔ p <:+: s :=
  stringsIndex_isSome_iff s p

/-- The shape shared by `isCurl` and `wantsJson`. -/
theorem headerAny_iff (h : Header) (key sub : GoString) :
    (h.any fun entry =>
      if entry.1 ≠ key then false
      else entry.2.any fun header => stringsContains header sub) = true ↔
    ∃ entry ∈ h, entry.1 = key ∧ ∃ v ∈ entry.2, sub <:+: v := by
  simp only [List.any_eq_true]
  constructor
  · rintro ⟨e, he, h2⟩
    by_cases hk : e.1 = key
    · simp only [hk, ne_eq, not_true_eq_false, if_false, List.any_eq_true] at h2
      obtain ⟨v, hv, hc⟩ := h2
      exact ⟨e, he, hk, v, hv, (stringsContains_iff _ _).1 hc⟩
    · simp [hk] at h2
  · rintro ⟨e, he, hk, v, hv, hc⟩
    refine ⟨e, he, ?_⟩
    simp only [hk, ne_eq, not_true_eq_false, if_false, List.any_eq_true]
    exact ⟨v, hv, (stringsContains_iff _ _).2 hc⟩

theorem stringsSplit_ne_nil (sep : Char) (s : GoString) : stringsSplit sep s ≠ [] := by
  induction s with
  | nil => simp [stringsSplit]
  | cons c s ih =>
    simp only [stringsSplit]
    split
    · simp
    · split <;> simp

theorem stringsSplit_length_pos (sep : Char) (s : GoString) :
    0 < (stringsSplit sep s).length :=
  List.length_pos.2 (stringsSplit_ne_nil sep s)

/-- Joining the pieces with the separator gives the string back. -/
theorem stringsSplit_intercalate (sep : Char) (s : GoString) :
    [sep].intercalate (stringsSplit sep s) = s := by
  induction s with
  | nil => simp [stringsSplit, List.intercalate]
  | cons c s ih =>
    simp only [stringsSplit]
    split
    · rename_i hc
      have hne := stringsSplit_ne_nil sep s
      cases hs : stringsSplit sep s with
      | nil => exact absurd hs hne
      | cons p ps =>
        rw [hs] at ih
        simp only [List.intercalate, List.intersperse, List.flatten_cons, List.nil_append,
          List.singleton_append] at ih ⊢
        rw [ih, hc]
    · cases hs : stringsSplit sep s with
      | nil => exact absurd hs (stringsSplit_ne_nil sep s)
      | cons p ps =>
        rw [hs] at ih
        simp only
        cases ps with
        | nil =>
          simp only [List.intercalate, List.intersperse, List.flatten_cons, List.flatten_nil,
            List.append_nil] at ih ⊢
          rw [ih]
        | cons q qs =>
          simp only [List.intercalate, List.intersperse, List.flatten_cons,
            List.cons_append] at ih ⊢
          rw [ih]

/-- No piece contains the separator. -/
theorem stringsSplit_no_sep (sep : Char) (s : GoString) :
    ∀ piece ∈ stringsSplit sep s, sep ∉ piece := by
  induction s with
  | nil => simp [stringsSplit]
  | cons c s ih =>
    simp only [stringsSplit]
    split
    · intro piece hp
      rcases List.mem_cons.1 hp with rfl | hp
      · simp
      · exact ih piece hp
    · rename_i hc
      cases hs : stringsSplit sep s with
      | nil => exact absurd hs (stringsSplit_ne_nil sep s)
      | cons p ps =>
        rw [hs] at ih
        intro piece hp
        rcases List.mem_cons.1 hp with rfl | hp
        · intro hmem
          rcases List.mem_cons.1 hmem with h | h
          · exact hc h.symm
          · exact ih p (List.mem_cons_self _ _) h
        · exact ih piece (List.mem_cons_of_mem _ hp)

theorem stringsSplit_of_no_sep (sep : Char) (s : GoString) (h : sep ∉ s) :
    stringsSplit sep s = [s] := by
  induction s with
  | nil => rfl
  | cons c s ih =>
    simp only [List.mem_cons, not_or] at h
    simp only [stringsSplit, ih h.2]
    rw [if_neg (fun hc => h.1 hc.symm)]

theorem stringsSplit_append_sep (sep : Char) (a rest : GoString) (h : sep ∉ a) :
    stringsSplit sep (a ++ sep :: rest) = a :: stringsSplit sep rest := by
  induction a with
  | nil => simp [stringsSplit]
  | cons c s ih =>
    simp only [List.mem_cons, not_or] at h
    have ih2 := ih h.2
    show stringsSplit sep (c :: (s ++ sep :: rest)) = _
    simp only [stringsSplit]
    rw [if_neg (fun hc => h.1 hc.symm), ih2]

theorem replaceAllString_eq_filter (s : GoString) :
    replaceAllString s = s.filter inClass := by
  induction s with
  | nil => rfl
  | cons c s ih =>
    simp only [replaceAllString, List.filter_cons, ih]

theorem getD_length_sub_one (l : List GoString) :
    l.getD (l.length - 1) [] = l.getLast?.getD [] := by
  rw [List.getLast?_eq_getElem?, List.getD_eq_getElem?_getD]

theorem getD_length_sub_two (l : List GoString) (h : 1 < l.length) :
    l.getD (l.length - 2) [] = l.dropLast.getLast?.getD [] := by
  rw [List.getLast?_eq_getElem?, List.getD_eq_getElem?_getD, List.length_dropLast]
  have h1 : l.length - 1 - 1 = l.length - 2 := by omega
  rw [h1, List.dropLast_eq_take, List.getElem?_take, if_pos (by omega)]

/-! ## The two paths of `getIp` -/

theorem char_eq_of_toNat (c : Char) (n : Nat) (h : c.toNat = n) : c = Char.ofNat n := by
  rw [← h, Char.ofNat_toNat]

theorem inClass_iff (c : Char) :
    inClass c = true ↔ c ∈ "abcdef0123456789.:".toList := by
  constructor
  · intro h
    simp only [inClass, Bool.or_eq_true, Bool.and_eq_true, decide_eq_true_eq,
      beq_iff_eq] at h
    rcases h with ((⟨h1, h2⟩ | ⟨h1, h2⟩) | h) | h
    · have h1' : 97 ≤ c.toNat := h1
      have h2' : c.toNat ≤ 102 := h2
      have : c.toNat = 97 ∨ c.toNat = 98 ∨ c.toNat = 99 ∨ c.toNat = 100 ∨ c.toNat = 101 ∨
          c.toNat = 102 := by omega
      rcases this with h | h | h | h | h | h <;>
        (rw [char_eq_of_toNat c _ h]; decide)
    · have h1' : 48 ≤ c.toNat := h1
      have h2' : c.toNat ≤ 57 := h2
      have : c.toNat = 48 ∨ c.toNat = 49 ∨ c.toNat = 50 ∨ c.toNat = 51 ∨ c.toNat = 52 ∨
          c.toNat = 53 ∨ c.toNat = 54 ∨ c.toNat = 55 ∨ c.toNat = 56 ∨ c.toNat = 57 := by omega
      rcases this with h | h | h | h | h | h | h | h | h | h <;>
        (rw [char_eq_of_toNat c _ h]; decide)
    · subst h; decide
    · subst h; decide
  · intro h
    have : ∀ d ∈ "abcdef0123456789.:".toList, inClass d = true := by decide
    exact this c h

theorem getIp_of_candidate_ne_nil (b : Bool) (req : Request)
    (h : forwardedCandidate b req ≠ []) :
    getIp b req = resolveCandidate (forwardedCandidate b req) := by
  simp only [getIp, if_neg h]

theorem getIp_of_candidate_nil_error (b : Bool) (req : Request) (e : AddrError)
    (h : forwardedCandidate b req = []) (hs : SplitHostPort req.RemoteAddr = .error e) :
    getIp b req = ([], some (.addrError e)) := by
  simp only [getIp, if_pos h, hs]

theorem getIp_of_candidate_nil_ok (b : Bool) (req : Request) (host port : GoString)
    (h : forwardedCandidate b req = []) (hs : SplitHostPort req.RemoteAddr = .ok (host, port)) :
    getIp b req = resolveCandidate host := by
  simp only [getIp, if_pos h, hs]

/-- The candidate in the words of the selection rule. -/
theorem forwardedCandidate_eq (b : Bool) (req : Request) :
    forwardedCandidate b req =
      (if b = true ∧ 1 < (stringsSplit ',' (req.Header.Get "X-Forwarded-For".toList)).length
        then (stringsSplit ',' (req.Header.Get "X-Forwarded-For".toList)).dropLast.getLast?.getD []
        else (stringsSplit ',' (req.Header.Get "X-Forwarded-For".toList)).getLast?.getD []).filter
        inClass := by
  simp only [forwardedCandidate]
  rw [if_pos (stringsSplit_length_pos _ _)]
  by_cases h : b = true ∧ 1 < (stringsSplit ',' (req.Header.Get "X-Forwarded-For".toList)).length
  · rw [if_pos (by simpa using h), if_pos h, replaceAllString_eq_filter,
      getD_length_sub_two _ h.2]
  · rw [if_neg (by simpa using h), if_neg h, replaceAllString_eq_filter,
      getD_length_sub_one]

theorem resolveCandidate_some (c : GoString) (ip : List Nat) (h : ParseIP c = some ip) :
    resolveCandidate c = (normalised ip, none) := by
  simp only [resolveCandidate, h, normalised]
  by_cases h1 : IPString ip = "::1".toList
  · rw [if_neg (by simpa using h1), if_pos h1]
  · rw [if_pos (by simpa using h1), if_neg h1]

theorem resolveCandidate_none (c : GoString) (h : ParseIP c = none) :
    resolveCandidate c = ([], some ipNotFound) := by
  simp only [resolveCandidate, h, ipNotFound]

theorem resolveCandidate_ne_loopback_text (c : GoString) :
    (resolveCandidate c).1 ≠ "::1".toList := by
  cases h : ParseIP c with
  | none => rw [resolveCandidate_none c h]; decide
  | some ip =>
    rw [resolveCandidate_some c ip h]
    simp only [normalised]
    split
    · decide
    · assumption

theorem getIp_fst_ne_loopback_text (b : Bool) (req : Request) :
    (getIp b req).1 ≠ "::1".toList := by
  by_cases h : forwardedCandidate b req = []
  · cases hs : SplitHostPort req.RemoteAddr with
    | error e =>
      rw [getIp_of_candidate_nil_error b req e h hs]
      show ([] : GoString) ≠ "::1".toList
      decide
    | ok hp =>
      obtain ⟨host, port⟩ := hp
      rw [getIp_of_candidate_nil_ok b req host port h hs]
      exact resolveCandidate_ne_loopback_text host
  · rw [getIp_of_candidate_ne_nil b req h]
    exact resolveCandidate_ne_loopback_text _

/-! ## The characters of an accepted address text -/

theorem isDigit_hexVal (c : Char) (h : isDigit c = true) : (hexVal c).isSome = true := by
  simp only [isDigit, Bool.and_eq_true, decide_eq_true_eq] at h
  simp only [hexVal, if_pos h, Option.isSome_some]

theorem parseIPv4FieldsLoop_chars (s : GoString) :
    ∀ (atStart : Bool) (prev : Char) (val digLen : Nat) (fields r : List Nat),
      parseIPv4FieldsLoop s atStart prev val digLen fields = some r →
      ∀ c ∈ s, isDigit c = true ∨ c = '.' := by
  induction s with
  | nil => intro _ _ _ _ _ _ _ c hc; simp at hc
  | cons x rest ih =>
    intro atStart prev val digLen fields r h c hc
    simp only [parseIPv4FieldsLoop] at h
    by_cases hd : isDigit x = true
    · rw [if_pos hd] at h
      split at h
      · simp at h
      · split at h
        · simp at h
        · rcases List.mem_cons.1 hc with rfl | hc
          · exact Or.inl hd
          · exact ih _ _ _ _ _ _ h c hc
    · rw [if_neg hd] at h
      by_cases hdot : x = '.'
      · rw [if_pos hdot] at h
        split at h
        · simp at h
        · split at h
          · simp at h
          · rcases List.mem_cons.1 hc with rfl | hc
            · exact Or.inr hdot
            · exact ih _ _ _ _ _ _ h c hc
      · rw [if_neg hdot] at h
        simp at h

theorem hexLoop_split (s : GoString) :
    ∀ (off acc off2 acc2 : Nat) (rest : GoString),
      hexLoop s off acc = some (off2, acc2, rest) →
      ∃ pre, s = pre ++ rest ∧ (∀ c ∈ pre, (hexVal c).isSome = true) ∧
        off2 = off + pre.length := by
  induction s with
  | nil =>
    intro off acc off2 acc2 rest h
    simp only [hexLoop, Option.some.injEq, Prod.mk.injEq] at h
    exact ⟨[], by simp [h.2.2.symm], by simp, by simp [h.1.symm]⟩
  | cons x s ih =>
    intro off acc off2 acc2 rest h
    simp only [hexLoop] at h
    cases hx : hexVal x with
    | none =>
      rw [hx] at h
      simp only [Option.some.injEq, Prod.mk.injEq] at h
      exact ⟨[], by simp [h.2.2.symm], by simp, by simp [h.1.symm]⟩
    | some d =>
      rw [hx] at h
      simp only at h
      split at h
      · simp at h
      · split at h
        · simp at h
        · obtain ⟨pre, hs, hp, ho⟩ := ih _ _ _ _ _ h
          refine ⟨x :: pre, by simp [hs], ?_, by simp [ho]; omega⟩
          intro c hc
          rcases List.mem_cons.1 hc with rfl | hc
          · simp [hx]
          · exact hp c hc

theorem parseIPv6Loop_chars (n : Nat) :
    ∀ (s : GoString) (ip : List Nat) (e : Option Nat) (s2 : GoString) (ip2 : List Nat)
      (e2 : Option Nat),
      parseIPv6Loop n s ip e = some (s2, ip2, e2) →
      ∀ c ∈ s, c ∈ s2 ∨ ipChar c := by
  induction n with
  | zero =>
    intro s ip e s2 ip2 e2 h c hc
    simp only [parseIPv6Loop, Option.some.injEq, Prod.mk.injEq] at h
    exact Or.inl (h.1 ▸ hc)
  | succ n ih =>
    intro s ip e s2 ip2 e2 h c hc
    simp only [parseIPv6Loop] at h
    split at h
    · simp only [Option.some.injEq, Prod.mk.injEq] at h
      exact Or.inl (h.1 ▸ hc)
    · cases hh : hexLoop s 0 0 with
      | none => rw [hh] at h; simp at h
      | some r =>
        obtain ⟨off, acc, rest⟩ := r
        rw [hh] at h
        simp only at h
        obtain ⟨pre, hs, hpre, -⟩ := hexLoop_split s 0 0 off acc rest hh
        split at h
        · simp at h
        · split at h
          · -- trailing IPv4
            split at h
            · simp at h
            · split at h
              · simp at h
              · cases h4 : parseIPv4Fields s with
                | none => rw [h4] at h; simp at h
                | some f =>
                  rcases parseIPv4FieldsLoop_chars s _ _ _ _ _ _ h4 c hc with hd | hd
                  · exact Or.inr (Or.inl (isDigit_hexVal c hd))
                  · exact Or.inr (Or.inr (Or.inr hd))
          · rw [hs] at hc
            rcases List.mem_append.1 hc with hc | hc
            · exact Or.inr (Or.inl (hpre c hc))
            · -- the character lies in `rest`
              cases rest with
              | nil => simp at hc
              | cons c0 s1 =>
                simp only at h
                split at h
                · simp at h
                · rename_i hc0
                  simp only [ne_eq, Decidable.not_not] at hc0
                  rcases List.mem_cons.1 hc with rfl | hc
                  · exact Or.inr (Or.inr (Or.inl hc0))
                  · cases s1 with
                    | nil => simp at hc
                    | cons c1 s3 =>
                      simp only at h
                      split at h
                      · rename_i hc1
                        split at h
                        · simp at h
                        · rcases List.mem_cons.1 hc with rfl | hc
                          · exact Or.inr (Or.inr (Or.inl hc1))
                          · cases s3 with
                            | nil => simp at hc
                            | cons c2 s4 =>
                              simp only at h
                              exact ih _ _ _ _ _ _ h c hc
                      · exact ih _ _ _ _ _ _ h c hc

/-! ## `SplitHostPort` on a well-formed address, and what `ParseIP` accepts -/

theorem indexByteString_eq_none (s : GoString) (c : Char) :
    indexByteString s c = none ↔ c ∉ s := by
  induction s with
  | nil => simp [indexByteString]
  | cons x s ih =>
    simp only [indexByteString, List.mem_cons, not_or]
    by_cases hx : x = c
    · simp [hx]
    · rw [if_neg hx]
      cases h : indexByteString s c with
      | none => simp [ih.1 h, Ne.symm hx]
      | some i =>
        simp only [Option.map_some', false_iff, not_and, not_not, reduceCtorEq]
        intro _
        by_contra hc
        rw [ih.2 hc] at h
        simp at h

theorem indexByteString_isSome (s : GoString) (c : Char) :
    (indexByteString s c).isSome = true ↔ c ∈ s := by
  rw [← not_iff_not, ← indexByteString_eq_none]
  cases indexByteString s c <;> simp

theorem indexByteString_append (a rest : GoString) (c : Char) (h : c ∉ a) :
    indexByteString (a ++ c :: rest) c = some a.length := by
  induction a with
  | nil => simp [indexByteString]
  | cons x a ih =>
    simp only [List.mem_cons, not_or] at h
    show indexByteString (x :: (a ++ c :: rest)) c = _
    rw [indexByteString, if_neg (Ne.symm h.1), ih h.2]
    rfl

theorem lastIndexByteString_eq_none (s : GoString) (c : Char) (h : c ∉ s) :
    lastIndexByteString s c = none := by
  induction s with
  | nil => rfl
  | cons x s ih =>
    simp only [List.mem_cons, not_or] at h
    simp only [lastIndexByteString, ih h.2, if_neg (Ne.symm h.1)]

theorem lastIndexByteString_append (a rest : GoString) (c : Char) (h : c ∉ rest) :
    lastIndexByteString (a ++ c :: rest) c = some a.length := by
  induction a with
  | nil =>
    simp [lastIndexByteString, lastIndexByteString_eq_none rest c h]
  | cons x a ih =>
    show lastIndexByteString (x :: (a ++ c :: rest)) c = _
    rw [lastIndexByteString, ih]
    rfl

/-- An unbracketed host without colon or bracket, followed by a port. -/
theorem SplitHostPort_plain (H P : GoString)
    (hH : ':' ∉ H ∧ '[' ∉ H ∧ ']' ∉ H) (hP : ':' ∉ P ∧ '[' ∉ P ∧ ']' ∉ P) :
    SplitHostPort (H ++ ':' :: P) = .ok (H, P) := by
  have hhead : (H ++ ':' :: P).head? ≠ some '[' := by
    cases H with
    | nil => simp
    | cons x H =>
      simp only [List.cons_append, List.head?_cons, ne_eq, Option.some.injEq]
      intro hx
      exact hH.2.1 (by simp [hx])
  have h1 : ('[' : Char) ∉ H ++ ':' :: P := by
    simp only [List.mem_append, List.mem_cons, not_or]
    exact ⟨hH.2.1, by decide, hP.2.1⟩
  have h2 : (']' : Char) ∉ H ++ ':' :: P := by
    simp only [List.mem_append, List.mem_cons, not_or]
    exact ⟨hH.2.2, by decide, hP.2.2⟩
  simp only [SplitHostPort, lastIndexByteString_append H P ':' hP.1, if_neg hhead,
    List.take_left', (indexByteString_eq_none H ':').2 hH.1, Option.isSome_none,
    Bool.false_eq_true, if_false, splitHostPortTail, List.drop_zero,
    (indexByteString_eq_none _ '[').2 h1, (indexByteString_eq_none _ ']').2 h2]
  have : List.drop (H.length + 1) (H ++ ':' :: P) = P := by
    rw [show H ++ ':' :: P = (H ++ [':']) ++ P by simp]
    exact List.drop_left' (by simp)
  try rw [this]

/-- A bracketed host without bracket inside, followed by a port. -/
theorem SplitHostPort_bracketed (H P : GoString)
    (hH : '[' ∉ H ∧ ']' ∉ H) (hP : ':' ∉ P ∧ '[' ∉ P ∧ ']' ∉ P) :
    SplitHostPort ('[' :: H ++ ']' :: ':' :: P) = .ok (H, P) := by
  have hl : lastIndexByteString ('[' :: H ++ ']' :: ':' :: P) ':' = some (H.length + 2) := by
    have := lastIndexByteString_append ('[' :: H ++ [']']) P ':' hP.1
    simpa using this
  have hi : indexByteString ('[' :: H ++ ']' :: ':' :: P) ']' = some (H.length + 1) := by
    have := indexByteString_append ('[' :: H) (':' :: P) ']'
      (by simp only [List.mem_cons, not_or]; exact ⟨by decide, hH.2⟩)
    simpa using this
  have hlen : ¬ (H.length + 1 + 1 = ('[' :: H ++ ']' :: ':' :: P).length) := by
    simp
  have hd1 : List.drop 1 ('[' :: H ++ ']' :: ':' :: P) = H ++ ']' :: ':' :: P := by simp
  have hd2 : List.drop (H.length + 1 + 1) ('[' :: H ++ ']' :: ':' :: P) = ':' :: P := by
    rw [show '[' :: H ++ ']' :: ':' :: P = ('[' :: H ++ [']']) ++ ':' :: P by simp]
    exact List.drop_left' (by simp)
  have hd3 : List.drop (H.length + 2 + 1) ('[' :: H ++ ']' :: ':' :: P) = P := by
    rw [show '[' :: H ++ ']' :: ':' :: P = ('[' :: H ++ [']', ':']) ++ P by simp]
    exact List.drop_left' (by simp)
  have ht : List.drop 1 (List.take (H.length + 1) ('[' :: H ++ ']' :: ':' :: P)) = H := by
    rw [show '[' :: H ++ ']' :: ':' :: P = ('[' :: H) ++ ']' :: ':' :: P by simp,
      List.take_left' (by simp)]
    simp
  have h1 : ('[' : Char) ∉ H ++ ']' :: ':' :: P := by
    simp only [List.mem_append, List.mem_cons, not_or]
    exact ⟨hH.1, by decide, by decide, hP.2.1⟩
  have h2 : (']' : Char) ∉ ':' :: P := by
    simp only [List.mem_cons, not_or]
    exact ⟨by decide, hP.2.2⟩
  simp only [SplitHostPort, hl, hi]
  rw [if_pos (by simp), if_neg hlen]
  simp only [if_true, splitHostPortTail, hd1, hd2, hd3, ht, (indexByteString_eq_none _ '[').2 h1,
    (indexByteString_eq_none _ ']').2 h2, Option.isSome_none, Bool.false_eq_true, if_false]

theorem parseAddrScan_cases (full : GoString) (a : Addr) :
    ∀ rest : GoString, parseAddrScan full rest = some a →
      parseIPv4 full = some a ∨ parseIPv6 full = some a := by
  intro rest
  induction rest with
  | nil => intro h; simp [parseAddrScan] at h
  | cons c rest ih =>
    intro h
    simp only [parseAddrScan] at h
    split at h
    · exact Or.inl h
    · split at h
      · exact Or.inr h
      · split at h
        · simp at h
        · exact ih h

theorem parseIPv6Finish_nil (st : GoString × List Nat × Option Nat) (r : List Nat)
    (hf : parseIPv6Finish st = some r) : st.1 = [] := by
  obtain ⟨s1, ip1, e1⟩ := st
  simp only [parseIPv6Finish] at hf
  by_contra hne
  rw [if_pos hne] at hf
  simp at hf

theorem parseIPv6Loop_finish_chars (t : GoString) (e : Option Nat) (r : List Nat)
    (h : (parseIPv6Loop 8 t [] e).bind parseIPv6Finish = some r) : ∀ c ∈ t, ipChar c := by
  rw [Option.bind_eq_some] at h
  obtain ⟨st, hl, hf⟩ := h
  have h0 := parseIPv6Finish_nil st r hf
  obtain ⟨s1, ip1, e1⟩ := st
  simp only at h0
  subst h0
  intro c hc
  rcases parseIPv6Loop_chars 8 t [] e [] ip1 e1 hl c hc with h | h
  · simp at h
  · exact h

theorem parseIPv6Addr_chars (s : GoString) (ip : List Nat)
    (h : parseIPv6Addr s = some ip) : ∀ c ∈ s, ipChar c := by
  simp only [parseIPv6Addr] at h
  split at h
  · rename_i h2
    have hs : s = ':' :: ':' :: s.drop 2 := by
      match s, h2 with
      | a :: b :: t, h2 =>
        simp only [List.take_succ_cons, List.take_zero, List.cons.injEq, and_true] at h2
        simp [h2.1, h2.2]
    intro c hc
    rw [hs] at hc
    rcases List.mem_cons.1 hc with rfl | hc
    · exact Or.inr (Or.inl rfl)
    · rcases List.mem_cons.1 hc with rfl | hc
      · exact Or.inr (Or.inl rfl)
      · split at h
        · rename_i h3
          rw [h3] at hc
          simp at hc
        · exact parseIPv6Loop_finish_chars _ _ _ h c hc
  · exact parseIPv6Loop_finish_chars _ _ _ h

theorem parseIPv6_zone_nil (s : GoString) (ip : List Nat)
    (h : parseIPv6 s = some (.v6 ip [])) : parseIPv6Addr s = some ip := by
  simp only [parseIPv6, splitZone] at h
  cases hz : indexByteString s '%' with
  | some i =>
    rw [hz] at h
    by_cases hd : s.drop (i + 1) = []
    · simp [hd] at h
    · simp only [if_neg hd, Option.map_eq_some', Addr.v6.injEq] at h
      obtain ⟨_, _, _, h2⟩ := h
      exact absurd h2 hd
  | none =>
    rw [hz] at h
    simp only [Option.map_eq_some', Addr.v6.injEq, and_true] at h
    obtain ⟨a, h1, h2⟩ := h
    rw [h1, h2]

theorem parseIPv6_ne_v4 (s : GoString) (f : List Nat) : parseIPv6 s ≠ some (.v4 f) := by
  simp only [parseIPv6]
  split
  · simp
  · simp

theorem ParseIP_chars (s : GoString) (ip : List Nat) (h : ParseIP s = some ip) :
    ∀ c ∈ s, ipChar c := by
  simp only [ParseIP] at h
  cases ha : ParseAddr s with
  | none => rw [ha] at h; simp at h
  | some a =>
    rw [ha] at h
    simp only at h
    split at h
    · simp at h
    · rename_i hz
      simp only [ne_eq, Decidable.not_not] at hz
      rcases parseAddrScan_cases s a s ha with h4 | h6
      · simp only [parseIPv4, Option.map_eq_some'] at h4
        obtain ⟨f, hf, -⟩ := h4
        intro c hc
        rcases parseIPv4FieldsLoop_chars s _ _ _ _ _ _ hf c hc with hd | hd
        · exact Or.inl (isDigit_hexVal c hd)
        · exact Or.inr (Or.inr hd)
      · cases a with
        | v4 f => exact absurd h6 (parseIPv6_ne_v4 s f)
        | v6 ip6 zone =>
          simp only [Addr.Zone] at hz
          subst hz
          exact parseIPv6Addr_chars s ip6 (parseIPv6_zone_nil s ip6 h6)

theorem ipChar_not_bracket (c : Char) (h : ipChar c) : c ≠ '[' ∧ c ≠ ']' ∧ c ≠ ',' := by
  refine ⟨?_, ?_, ?_⟩ <;>
  · rintro rfl
    revert h
    simp only [ipChar]
    decide

/-! ## The fallback to `RemoteAddr` -/

theorem Header.values_of_absent (h : Header) (key : GoString)
    (hno : ∀ entry ∈ h, entry.1 ≠ key) : h.values key = [] := by
  induction h with
  | nil => rfl
  | cons e rest ih =>
    obtain ⟨name, vs⟩ := e
    simp only [Header.values]
    rw [if_neg (hno (name, vs) (List.mem_cons_self _ _))]
    exact ih (fun entry he => hno entry (List.mem_cons_of_mem _ he))

theorem Header.Get_of_absent (h : Header) (key : GoString)
    (hno : ∀ entry ∈ h, entry.1 ≠ key) : h.Get key = [] := by
  simp only [Header.Get, Header.values_of_absent h key hno]

theorem forwardedCandidate_of_empty (b : Bool) (req : Request)
    (h : req.Header.Get "X-Forwarded-For".toList = []) : forwardedCandidate b req = [] := by
  simp only [forwardedCandidate, h, stringsSplit]
  simp [replaceAllString]

theorem SplitHostPort_joinHostPort (H P : GoString) (ip : List Nat)
    (hH : ParseIP H = some ip) (hP : ':' ∉ P ∧ '[' ∉ P ∧ ']' ∉ P) :
    SplitHostPort (joinHostPort H P) = .ok (H, P) := by
  have hc := ParseIP_chars H ip hH
  have h1 : '[' ∉ H := fun hm => (ipChar_not_bracket _ (hc _ hm)).1 rfl
  have h2 : ']' ∉ H := fun hm => (ipChar_not_bracket _ (hc _ hm)).2.1 rfl
  simp only [joinHostPort]
  split
  · have := SplitHostPort_bracketed H P ⟨h1, h2⟩ hP
    simpa using this
  · rename_i hcol
    exact SplitHostPort_plain H P ⟨hcol, h1, h2⟩ hP

theorem getIp_of_remote_addr (b : Bool) (req : Request) (H P : GoString) (ip : List Nat)
    (hx : ∀ entry ∈ req.Header, entry.1 ≠ "X-Forwarded-For".toList)
    (hH : ParseIP H = some ip) (hP : ':' ∉ P ∧ '[' ∉ P ∧ ']' ∉ P)
    (hr : req.RemoteAddr = joinHostPort H P) :
    getIp b req = (normalised ip, none) := by
  have hc := forwardedCandidate_of_empty b req (Header.Get_of_absent _ _ hx)
  rw [getIp_of_candidate_nil_ok b req H P hc (by rw [hr]; exact SplitHostPort_joinHostPort H P ip hH hP),
    resolveCandidate_some H ip hH]

/-! ## `ParseIP` returns sixteen bytes -/

theorem parseIPv4FieldsLoop_wf (s : GoString) :
    ∀ (atStart : Bool) (prev : Char) (val digLen : Nat) (fields r : List Nat),
      parseIPv4FieldsLoop s atStart prev val digLen fields = some r →
      fields.length ≤ 3 → (∀ b ∈ fields, b < 256) →
      r.length = 4 ∧ ∀ b ∈ r, b < 256 := by
  induction s with
  | nil =>
    intro atStart prev val digLen fields r h hl hb
    simp only [parseIPv4FieldsLoop] at h
    split at h
    · simp at h
    · simp only [Option.some.injEq] at h
      subst h
      refine ⟨by simp; omega, ?_⟩
      intro b hb2
      rcases List.mem_append.1 hb2 with h1 | h1
      · exact hb b h1
      · simp only [List.mem_singleton] at h1
        omega
  | cons x rest ih =>
    intro atStart prev val digLen fields r h hl hb
    simp only [parseIPv4FieldsLoop] at h
    split at h
    · split at h
      · simp at h
      · split at h
        · simp at h
        · exact ih _ _ _ _ _ _ h hl hb
    · split at h
      · split at h
        · simp at h
        · split at h
          · simp at h
          · rename_i h3
            refine ih _ _ _ _ _ _ h (by simp; omega) ?_
            intro b hb2
            rcases List.mem_append.1 hb2 with h1 | h1
            · exact hb b h1
            · simp only [List.mem_singleton] at h1
              omega
      · simp at h

theorem parseIPv6Loop_wf (n : Nat) :
    ∀ (s : GoString) (ip : List Nat) (e : Option Nat) (s2 : GoString) (ip2 : List Nat)
      (e2 : Option Nat),
      parseIPv6Loop n s ip e = some (s2, ip2, e2) →
      ip.length % 2 = 0 → ip.length ≤ 16 → (∀ b ∈ ip, b < 256) →
      ip2.length ≤ 16 ∧ ∀ b ∈ ip2, b < 256 := by
  induction n with
  | zero =>
    intro s ip e s2 ip2 e2 h _ hl hb
    simp only [parseIPv6Loop, Option.some.injEq, Prod.mk.injEq] at h
    rw [← h.2.1]
    exact ⟨hl, hb⟩
  | succ n ih =>
    intro s ip e s2 ip2 e2 h hev hl hb
    simp only [parseIPv6Loop] at h
    split at h
    · simp only [Option.some.injEq, Prod.mk.injEq] at h
      rw [← h.2.1]
      exact ⟨hl, hb⟩
    · rename_i hlt
      simp only [not_not] at hlt
      cases hh : hexLoop s 0 0 with
      | none => rw [hh] at h; simp at h
      | some r =>
        obtain ⟨off, acc, rest⟩ := r
        rw [hh] at h
        simp only at h
        have hb2 : ∀ b ∈ ip ++ [acc / 256 % 256, acc % 256], b < 256 := by
          intro b hm
          rcases List.mem_append.1 hm with h1 | h1
          · exact hb b h1
          · simp only [List.mem_cons, List.mem_singleton, List.mem_nil_iff, or_false] at h1
            omega
        have hl2 : (ip ++ [acc / 256 % 256, acc % 256]).length ≤ 16 := by
          simp; omega
        have hev2 : (ip ++ [acc / 256 % 256, acc % 256]).length % 2 = 0 := by
          simp; omega
        split at h
        · simp at h
        · split at h
          · split at h
            · simp at h
            · split at h
              · simp at h
              · rename_i h16
                cases h4 : parseIPv4Fields s with
                | none => rw [h4] at h; simp at h
                | some f =>
                  rw [h4] at h
                  simp only [Option.some.injEq, Prod.mk.injEq] at h
                  obtain ⟨hf1, hf2⟩ := parseIPv4FieldsLoop_wf s _ _ _ _ _ _ h4 (by simp)
                    (by simp)
                  rw [← h.2.1]
                  refine ⟨by simp; omega, ?_⟩
                  intro b hm
                  rcases List.mem_append.1 hm with h1 | h1
                  · exact hb b h1
                  · exact hf2 b h1
          · cases rest with
            | nil =>
              simp only [Option.some.injEq, Prod.mk.injEq] at h
              rw [← h.2.1]
              exact ⟨hl2, hb2⟩
            | cons c0 s1 =>
              simp only at h
              split at h
              · simp at h
              · cases s1 with
                | nil => simp at h
                | cons c1 s3 =>
                  simp only at h
                  split at h
                  · split at h
                    · simp at h
                    · cases s3 with
                      | nil =>
                        simp only [Option.some.injEq, Prod.mk.injEq] at h
                        rw [← h.2.1]
                        exact ⟨hl2, hb2⟩
                      | cons c2 s4 =>
                        simp only at h
                        exact ih _ _ _ _ _ _ h hev2 hl2 hb2
                  · exact ih _ _ _ _ _ _ h hev2 hl2 hb2

theorem parseIPv6Finish_wf (st : GoString × List Nat × Option Nat) (r : List Nat)
    (h : parseIPv6Finish st = some r) (hl : st.2.1.length ≤ 16)
    (hb : ∀ b ∈ st.2.1, b < 256) : wfIP r := by
  obtain ⟨s, ip, e⟩ := st
  simp only at hl hb
  simp only [parseIPv6Finish] at h
  split at h
  · simp at h
  · split at h
    · cases e with
      | none => simp at h
      | some e =>
        simp only [Option.some.injEq] at h
        subst h
        constructor
        · simp only [List.length_append, List.length_take, List.length_replicate,
            List.length_drop]
          omega
        · intro b hm
          simp only [List.mem_append, List.mem_replicate] at hm
          rcases hm with (h1 | h1) | h1
          · exact hb b (List.mem_of_mem_take h1)
          · omega
          · exact hb b (List.mem_of_mem_drop h1)
    · split at h
      · simp at h
      · simp only [Option.some.injEq] at h
        subst h
        exact ⟨by omega, hb⟩

theorem parseIPv6Addr_wf (s : GoString) (ip : List Nat) (h : parseIPv6Addr s = some ip) :
    wfIP ip := by
  have key : ∀ (t : GoString) (e : Option Nat) (r : List Nat),
      (parseIPv6Loop 8 t [] e).bind parseIPv6Finish = some r → wfIP r := by
    intro t e r hr
    rw [Option.bind_eq_some] at hr
    obtain ⟨st, hl, hf⟩ := hr
    obtain ⟨s1, ip1, e1⟩ := st
    obtain ⟨h1, h2⟩ := parseIPv6Loop_wf 8 t [] e s1 ip1 e1 hl (by simp) (by simp) (by simp)
    exact parseIPv6Finish_wf _ r hf h1 h2
  simp only [parseIPv6Addr] at h
  split at h
  · split at h
    · simp only [Option.some.injEq] at h
      subst h
      refine ⟨by simp, ?_⟩
      intro b hb
      rw [List.mem_replicate] at hb
      omega
    · exact key _ _ _ h
  · exact key _ _ _ h

theorem ParseIP_wf (s : GoString) (ip : List Nat) (h : ParseIP s = some ip) : wfIP ip := by
  simp only [ParseIP] at h
  cases ha : ParseAddr s with
  | none => rw [ha] at h; simp at h
  | some a =>
    rw [ha] at h
    simp only at h
    split at h
    · simp at h
    · rename_i hz
      simp only [ne_eq, Decidable.not_not] at hz
      simp only [Option.some.injEq] at h
      subst h
      rcases parseAddrScan_cases s a s ha with h4 | h6
      · simp only [parseIPv4, Option.map_eq_some'] at h4
        obtain ⟨f, hf, rfl⟩ := h4
        obtain ⟨hf1, hf2⟩ := parseIPv4FieldsLoop_wf s _ _ _ _ _ _ hf (by simp) (by simp)
        simp only [Addr.As16]
        refine ⟨by simp [hf1], ?_⟩
        intro b hm
        simp only [List.mem_append, List.mem_replicate, List.mem_cons, List.mem_singleton,
          List.mem_nil_iff, or_false] at hm
        rcases hm with (h1 | h1) | h1
        · omega
        · omega
        · exact hf2 b h1
      · cases a with
        | v4 f => exact absurd h6 (parseIPv6_ne_v4 s f)
        | v6 ip6 zone =>
          simp only [Addr.Zone] at hz
          subst hz
          exact parseIPv6Addr_wf s ip6 (parseIPv6_zone_nil s ip6 h6)

/-! ## The iteration bounds of the embedded loops are not reached -/

/-- The bound of `parseIPv6Loop` is never what ends the loop: once `16 ≤ i + 2n`, one
more permitted iteration changes nothing.  From the start (`i = 0`, bound 8) the loop
therefore behaves as the unbounded loop `for i < 16`. -/
theorem parseIPv6Loop_bound (n : Nat) :
    ∀ (s : GoString) (ip : List Nat) (e : Option Nat), 16 ≤ ip.length + 2 * n →
      parseIPv6Loop (n + 1) s ip e = parseIPv6Loop n s ip e := by
  induction n with
  | zero =>
    intro s ip e h
    simp only [parseIPv6Loop]
    rw [if_pos (by omega)]
  | succ n ih =>
    intro s ip e h
    rw [parseIPv6Loop]
    conv => rhs; rw [parseIPv6Loop]
    by_cases hl : ¬ ip.length < 16
    · rw [if_pos hl, if_pos hl]
    · rw [if_neg hl, if_neg hl]
      cases hh : hexLoop s 0 0 with
      | none => rfl
      | some r =>
        obtain ⟨off, acc, rest⟩ := r
        simp only
        have hstep : ∀ (t : GoString) (e2 : Option Nat),
            parseIPv6Loop (n + 1) t (ip ++ [acc / 256 % 256, acc % 256]) e2 =
              parseIPv6Loop n t (ip ++ [acc / 256 % 256, acc % 256]) e2 :=
          fun t e2 => ih t _ e2 (by simp; omega)
        split
        · rfl
        · split
          · rfl
          · cases rest with
            | nil => rfl
            | cons c s1 =>
              simp only
              split
              · rfl
              · cases s1 with
                | nil => rfl
                | cons c1 s2 =>
                  simp only
                  split
                  · split
                    · rfl
                    · cases s2 with
                      | nil => rfl
                      | cons c2 s3 => exact hstep _ _
                  · exact hstep _ _

/-- The bound of `zeroRunEnd` is never what ends the inner loop. -/
theorem zeroRunEnd_bound (ip : List Nat) (n : Nat) :
    ∀ j, 8 ≤ j + n → zeroRunEnd ip (n + 1) j = zeroRunEnd ip n j := by
  induction n with
  | zero =>
    intro j h
    simp only [zeroRunEnd]
    rw [if_neg (by omega)]
  | succ n ih =>
    intro j h
    rw [zeroRunEnd]
    conv => rhs; rw [zeroRunEnd]
    split
    · exact ih (j + 1) (by omega)
    · rfl

/-- The bound of `appendTo6Loop` is never what ends the second loop, the chosen run
being a run (`zeroStart ≤ zeroEnd`). -/
theorem appendTo6Loop_bound (ip : List Nat) (zs ze : Nat) (hz : zs ≤ ze) (n : Nat) :
    ∀ (i : Nat) (ret : GoString), 8 ≤ i + n →
      appendTo6Loop ip zs ze (n + 1) i ret = appendTo6Loop ip zs ze n i ret := by
  induction n with
  | zero =>
    intro i ret h
    simp only [appendTo6Loop]
    rw [if_pos (by omega)]
  | succ n ih =>
    intro i ret h
    rw [appendTo6Loop]
    conv => rhs; rw [appendTo6Loop]
    split
    · rfl
    · split
      · rename_i hi
        simp only
        split
        · rfl
        · exact ih _ _ (by omega)
      · exact ih _ _ (by omega)

/-! ## The characters of an address text produced by `IP.String` -/

theorem digit_lt_ten (k : Nat) (h : k < 10) :
    isDigit (digit k) = true ∧ (digit k).toNat - '0'.toNat = k ∧ digit k ≠ '.' ∧
      digit k ≠ ':' ∧ digit k ≠ '%' := by
  interval_cases k <;> decide

theorem digit_lt_sixteen (k : Nat) (h : k < 16) :
    hexVal (digit k) = some k ∧ digit k ≠ '.' ∧ digit k ≠ ':' ∧ digit k ≠ '%' := by
  interval_cases k <;> decide

theorem digit_inClass (k : Nat) : inClass (digit k) = true := by
  by_cases h : k < 16
  · interval_cases k <;> decide
  · have : digit k = '0' := by
      simp only [digit, digits]
      rw [List.getD_eq_default]
      simp only [not_lt] at h
      exact h
    rw [this]; decide

theorem appendDecimal_inClass (x : Nat) : ∀ c ∈ appendDecimal x, inClass c = true := by
  intro c hc
  simp only [appendDecimal, List.mem_append, List.mem_singleton] at hc
  rcases hc with (hc | hc) | hc
  · split at hc
    · simp only [List.mem_singleton] at hc; rw [hc]; exact digit_inClass _
    · simp at hc
  · split at hc
    · simp only [List.mem_singleton] at hc; rw [hc]; exact digit_inClass _
    · simp at hc
  · rw [hc]; exact digit_inClass _

theorem appendHex_inClass (x : Nat) : ∀ c ∈ appendHex x, inClass c = true := by
  intro c hc
  simp only [appendHex, List.mem_append, List.mem_singleton] at hc
  rcases hc with ((hc | hc) | hc) | hc
  · split at hc
    · simp only [List.mem_singleton] at hc; rw [hc]; exact digit_inClass _
    · simp at hc
  · split at hc
    · simp only [List.mem_singleton] at hc; rw [hc]; exact digit_inClass _
    · simp at hc
  · split at hc
    · simp only [List.mem_singleton] at hc; rw [hc]; exact digit_inClass _
    · simp at hc
  · rw [hc]; exact digit_inClass _

theorem string4_inClass (p4 : List Nat) : ∀ c ∈ string4 p4, inClass c = true := by
  intro c hc
  simp only [string4, List.mem_append, List.mem_cons] at hc
  rcases hc with ((hc | hc | hc) | hc | hc) | hc | hc
  · exact appendDecimal_inClass _ c hc
  · rw [hc]; decide
  · exact appendDecimal_inClass _ c hc
  · rw [hc]; decide
  · exact appendDecimal_inClass _ c hc
  · rw [hc]; decide
  · exact appendDecimal_inClass _ c hc

theorem appendTo6Loop_inClass (ip : List Nat) (zs ze : Nat) (n : Nat) :
    ∀ (i : Nat) (ret : GoString), (∀ c ∈ ret, inClass c = true) →
      ∀ c ∈ appendTo6Loop ip zs ze n i ret, inClass c = true := by
  induction n with
  | zero => intro i ret h; simpa [appendTo6Loop] using h
  | succ n ih =>
    intro i ret h
    simp only [appendTo6Loop]
    have hcol : ∀ c ∈ ret ++ [':', ':'], inClass c = true := by
      intro c hc
      rcases List.mem_append.1 hc with h1 | h1
      · exact h c h1
      · simp only [List.mem_cons, List.mem_singleton, List.mem_nil_iff, or_false,
          or_self] at h1
        rw [h1]; decide
    split
    · exact h
    · split
      · split
        · exact hcol
        · apply ih
          intro c hc
          rcases List.mem_append.1 hc with h1 | h1
          · exact hcol c h1
          · exact appendHex_inClass _ c h1
      · apply ih
        intro c hc
        rcases List.mem_append.1 hc with h1 | h1
        · split at h1
          · rcases List.mem_append.1 h1 with h2 | h2
            · exact h c h2
            · simp only [List.mem_singleton] at h2
              rw [h2]; decide
          · exact h c h1
        · exact appendHex_inClass _ c h1

theorem IPString_inClass (ip : List Nat) : ∀ c ∈ IPString ip, inClass c = true := by
  simp only [IPString]
  split
  · exact string4_inClass _
  · exact appendTo6Loop_inClass ip _ _ 8 0 [] (by simp)

/-! ## Reading back a dotted IPv4 text -/

theorem parseIPv4FieldsLoop_digit (k : Nat) (hk : k < 10) (s : GoString) (atStart : Bool)
    (prev : Char) (val digLen : Nat) (fields : List Nat)
    (hz : ¬ (digLen = 1 ∧ val = 0)) (hv : val * 10 + k ≤ 255) :
    parseIPv4FieldsLoop (digit k :: s) atStart prev val digLen fields =
      parseIPv4FieldsLoop s false (digit k) (val * 10 + k) (digLen + 1) fields := by
  obtain ⟨h1, h2, -⟩ := digit_lt_ten k hk
  simp only [parseIPv4FieldsLoop]
  rw [if_pos h1, if_neg hz, h2, if_neg (by omega)]

theorem parseIPv4FieldsLoop_dot (rest : GoString) (prev : Char) (val digLen : Nat)
    (fields : List Nat) (hp : prev ≠ '.') (hr : rest ≠ []) (hf : fields.length ≠ 3)
    (hv : val < 256) :
    parseIPv4FieldsLoop ('.' :: rest) false prev val digLen fields =
      parseIPv4FieldsLoop rest false '.' 0 0 (fields ++ [val]) := by
  simp only [parseIPv4FieldsLoop]
  have h1 : isDigit '.' = false := by decide
  simp [h1, hp, hr, hf, Nat.mod_eq_of_lt hv]

theorem appendDecimal_ne_nil (x : Nat) : appendDecimal x ≠ [] := by
  simp [appendDecimal]

/-- The digits of an octet, read back up to the dot that follows them. -/
theorem parseIPv4FieldsLoop_decimal_dot (x : Nat) (hx : x < 256) (rest : GoString)
    (atStart : Bool) (prev : Char) (fields : List Nat)
    (hr : rest ≠ []) (hf : fields.length ≠ 3) :
    parseIPv4FieldsLoop (appendDecimal x ++ '.' :: rest) atStart prev 0 0 fields =
      parseIPv4FieldsLoop rest false '.' 0 0 (fields ++ [x]) := by
  simp only [appendDecimal]
  by_cases h100 : x ≥ 100
  · rw [if_pos h100, if_pos (by omega)]
    simp only [List.singleton_append, List.cons_append, List.nil_append]
    rw [parseIPv4FieldsLoop_digit _ (by omega) _ _ _ _ _ _ (by omega) (by omega),
      parseIPv4FieldsLoop_digit _ (by omega) _ _ _ _ _ _ (by omega) (by omega),
      parseIPv4FieldsLoop_digit _ (by omega) _ _ _ _ _ _ (by omega) (by omega),
      parseIPv4FieldsLoop_dot _ _ _ _ _ (digit_lt_ten _ (by omega)).2.2.1 hr hf (by omega)]
    rw [show ((0 * 10 + x / 100) * 10 + x / 10 % 10) * 10 + x % 10 = x by omega]
  · rw [if_neg h100]
    by_cases h10 : x ≥ 10
    · rw [if_pos h10]
      simp only [List.singleton_append, List.cons_append, List.nil_append]
      rw [parseIPv4FieldsLoop_digit _ (by omega) _ _ _ _ _ _ (by omega) (by omega),
        parseIPv4FieldsLoop_digit _ (by omega) _ _ _ _ _ _ (by omega) (by omega),
        parseIPv4FieldsLoop_dot _ _ _ _ _ (digit_lt_ten _ (by omega)).2.2.1 hr hf (by omega)]
      rw [show (0 * 10 + x / 10 % 10) * 10 + x % 10 = x by omega]
    · rw [if_neg h10]
      simp only [List.singleton_append, List.cons_append, List.nil_append]
      rw [parseIPv4FieldsLoop_digit _ (by omega) _ _ _ _ _ _ (by omega) (by omega),
        parseIPv4FieldsLoop_dot _ _ _ _ _ (digit_lt_ten _ (by omega)).2.2.1 hr hf (by omega)]
      rw [show 0 * 10 + x % 10 = x by omega]

/-- The digits of the last octet, read back up to the end of the text. -/
theorem parseIPv4FieldsLoop_decimal_end (x : Nat) (hx : x < 256)
    (atStart : Bool) (prev : Char) (fields : List Nat) (hf : fields.length = 3) :
    parseIPv4FieldsLoop (appendDecimal x) atStart prev 0 0 fields = some (fields ++ [x]) := by
  have hend : ∀ (p : Char) (v d : Nat), v = x →
      parseIPv4FieldsLoop [] false p v d fields = some (fields ++ [x]) := by
    intro p v d hv
    simp only [parseIPv4FieldsLoop]
    rw [if_neg (by omega), hv, Nat.mod_eq_of_lt hx]
  simp only [appendDecimal]
  by_cases h100 : x ≥ 100
  · rw [if_pos h100, if_pos (by omega)]
    simp only [List.singleton_append, List.cons_append, List.nil_append]
    rw [parseIPv4FieldsLoop_digit _ (by omega) _ _ _ _ _ _ (by omega) (by omega),
      parseIPv4FieldsLoop_digit _ (by omega) _ _ _ _ _ _ (by omega) (by omega),
      parseIPv4FieldsLoop_digit _ (by omega) _ _ _ _ _ _ (by omega) (by omega)]
    exact hend _ _ _ (by omega)
  · rw [if_neg h100]
    by_cases h10 : x ≥ 10
    · rw [if_pos h10]
      simp only [List.singleton_append, List.cons_append, List.nil_append]
      rw [parseIPv4FieldsLoop_digit _ (by omega) _ _ _ _ _ _ (by omega) (by omega),
        parseIPv4FieldsLoop_digit _ (by omega) _ _ _ _ _ _ (by omega) (by omega)]
      exact hend _ _ _ (by omega)
    · rw [if_neg h10]
      simp only [List.singleton_append, List.cons_append, List.nil_append]
      rw [parseIPv4FieldsLoop_digit _ (by omega) _ _ _ _ _ _ (by omega) (by omega)]
      exact hend _ _ _ (by omega)

theorem parseIPv4Fields_string4 (a b c d : Nat) (ha : a < 256) (hb : b < 256)
    (hc : c < 256) (hd : d < 256) :
    parseIPv4Fields (string4 [a, b, c, d]) = some [a, b, c, d] := by
  simp only [parseIPv4Fields, string4, List.getD_cons_zero, List.getD_cons_succ,
    List.append_assoc, List.cons_append]
  rw [parseIPv4FieldsLoop_decimal_dot a ha _ _ _ _ (by simp [appendDecimal_ne_nil]) (by simp),
    parseIPv4FieldsLoop_decimal_dot b hb _ _ _ _ (by simp [appendDecimal_ne_nil]) (by simp),
    parseIPv4FieldsLoop_decimal_dot c hc _ _ _ _ (appendDecimal_ne_nil d) (by simp),
    parseIPv4FieldsLoop_decimal_end d hd _ _ _ (by simp)]
  rfl

/-- The scan of `ParseAddr` passes over decimal digits. -/
theorem parseAddrScan_appendDecimal_dot (full : GoString) (x : Nat) (hx : x < 256)
    (rest : GoString) :
    parseAddrScan full (appendDecimal x ++ '.' :: rest) = parseIPv4 full := by
  have step : ∀ (k : Nat) (t : GoString), k < 10 →
      parseAddrScan full (digit k :: t) = parseAddrScan full t := by
    intro k t hk
    obtain ⟨-, -, h1, h2, h3⟩ := digit_lt_ten k hk
    simp only [parseAddrScan]
    rw [if_neg h1, if_neg h2, if_neg h3]
  have dot : parseAddrScan full ('.' :: rest) = parseIPv4 full := by
    simp only [parseAddrScan, if_true]
  simp only [appendDecimal]
  by_cases h100 : x ≥ 100
  · rw [if_pos h100, if_pos (by omega)]
    simp only [List.singleton_append, List.cons_append, List.nil_append]
    rw [step _ _ (by omega), step _ _ (by omega), step _ _ (by omega), dot]
  · rw [if_neg h100]
    by_cases h10 : x ≥ 10
    · rw [if_pos h10]
      simp only [List.singleton_append, List.cons_append, List.nil_append]
      rw [step _ _ (by omega), step _ _ (by omega), dot]
    · rw [if_neg h10]
      simp only [List.singleton_append, List.cons_append, List.nil_append]
      rw [step _ _ (by omega), dot]

theorem ParseIP_string4 (a b c d : Nat) (ha : a < 256) (hb : b < 256)
    (hc : c < 256) (hd : d < 256) :
    ParseIP (string4 [a, b, c, d]) = some (List.replicate 10 0 ++ [255, 255] ++ [a, b, c, d]) := by
  have hscan : ParseAddr (string4 [a, b, c, d]) = parseIPv4 (string4 [a, b, c, d]) := by
    simp only [ParseAddr]
    conv => lhs; arg 2; simp only [string4, List.getD_cons_zero, List.append_assoc,
      List.cons_append]
    exact parseAddrScan_appendDecimal_dot _ a ha _
  simp only [ParseIP, hscan, parseIPv4, parseIPv4Fields_string4 a b c d ha hb hc hd,
    Option.map_some', Addr.Zone, Addr.As16]
  simp

/-! ## Reading back one hexadecimal group -/

theorem hexLoop_digit (k : Nat) (hk : k < 16) (s : GoString) (off acc : Nat)
    (ho : off ≤ 3) (ha : acc * 16 + k ≤ 65535) :
    hexLoop (digit k :: s) off acc = hexLoop s (off + 1) (acc * 16 + k) := by
  simp only [hexLoop, (digit_lt_sixteen k hk).1]
  have h1 : (acc * 16 % 2 ^ 32 + k) % 2 ^ 32 = acc * 16 + k := by omega
  rw [h1, if_neg (by omega), if_neg (by omega)]

theorem hexLoop_stop (rest : GoString) (off acc : Nat)
    (h : rest = [] ∨ ∃ t, rest = ':' :: t) :
    hexLoop rest off acc = some (off, acc, rest) := by
  rcases h with rfl | ⟨t, rfl⟩
  · rfl
  · simp only [hexLoop]
    have : hexVal ':' = none := by decide
    rw [this]

theorem hexLoop_appendHex (g : Nat) (hg : g < 65536) (rest : GoString)
    (h : rest = [] ∨ ∃ t, rest = ':' :: t) :
    ∃ off, 0 < off ∧ hexLoop (appendHex g ++ rest) 0 0 = some (off, g, rest) := by
  simp only [appendHex]
  by_cases h3 : g ≥ 0x1000
  · rw [if_pos h3, if_pos (by omega), if_pos (by omega)]
    simp only [List.singleton_append, List.cons_append, List.nil_append]
    rw [hexLoop_digit _ (by omega) _ _ _ (by omega) (by omega),
      hexLoop_digit _ (by omega) _ _ _ (by omega) (by omega),
      hexLoop_digit _ (by omega) _ _ _ (by omega) (by omega),
      hexLoop_digit _ (by omega) _ _ _ (by omega) (by omega),
      hexLoop_stop rest _ _ h]
    exact ⟨4, by omega, by
      rw [show ((0 * 16 + g / 4096) * 16 + g / 256 % 16) * 16 + g / 16 % 16 = g / 16 by omega]
      rw [show g / 16 * 16 + g % 16 = g by omega]⟩
  · rw [if_neg h3]
    by_cases h2 : g ≥ 0x100
    · rw [if_pos h2, if_pos (by omega)]
      simp only [List.singleton_append, List.cons_append, List.nil_append]
      rw [hexLoop_digit _ (by omega) _ _ _ (by omega) (by omega),
        hexLoop_digit _ (by omega) _ _ _ (by omega) (by omega),
        hexLoop_digit _ (by omega) _ _ _ (by omega) (by omega),
        hexLoop_stop rest _ _ h]
      exact ⟨3, by omega, by
        rw [show ((0 * 16 + g / 256 % 16) * 16 + g / 16 % 16) * 16 + g % 16 = g by omega]⟩
    · rw [if_neg h2]
      by_cases h1 : g ≥ 0x10
      · rw [if_pos h1]
        simp only [List.singleton_append, List.cons_append, List.nil_append]
        rw [hexLoop_digit _ (by omega) _ _ _ (by omega) (by omega),
          hexLoop_digit _ (by omega) _ _ _ (by omega) (by omega),
          hexLoop_stop rest _ _ h]
        exact ⟨2, by omega, by
          rw [show (0 * 16 + g / 16 % 16) * 16 + g % 16 = g by omega]⟩
      · rw [if_neg h1]
        simp only [List.singleton_append, List.cons_append, List.nil_append]
        rw [hexLoop_digit _ (by omega) _ _ _ (by omega) (by omega),
          hexLoop_stop rest _ _ h]
        exact ⟨1, by omega, by
          rw [show 0 * 16 + g % 16 = g by omega]⟩

/-- The text of a group starts with a hexadecimal digit. -/
theorem appendHex_eq_cons (g : Nat) (hg : g < 65536) :
    ∃ c t, appendHex g = c :: t ∧ c ≠ ':' ∧ c ≠ '.' ∧ c ≠ '%' := by
  simp only [appendHex]
  by_cases h3 : g ≥ 0x1000
  · rw [if_pos h3]
    exact ⟨_, _, by simp only [List.singleton_append, List.cons_append]; rfl,
      (digit_lt_sixteen _ (by omega)).2.2.1, (digit_lt_sixteen _ (by omega)).2.1,
      (digit_lt_sixteen _ (by omega)).2.2.2⟩
  · rw [if_neg h3]
    by_cases h2 : g ≥ 0x100
    · rw [if_pos h2]
      exact ⟨_, _, by simp only [List.nil_append, List.singleton_append, List.cons_append]; rfl,
        (digit_lt_sixteen _ (by omega)).2.2.1, (digit_lt_sixteen _ (by omega)).2.1,
        (digit_lt_sixteen _ (by omega)).2.2.2⟩
    · rw [if_neg h2]
      by_cases h1 : g ≥ 0x10
      · rw [if_pos h1]
        exact ⟨_, _, by simp only [List.nil_append, List.singleton_append]; rfl,
          (digit_lt_sixteen _ (by omega)).2.2.1, (digit_lt_sixteen _ (by omega)).2.1,
          (digit_lt_sixteen _ (by omega)).2.2.2⟩
      · rw [if_neg h1]
        exact ⟨_, _, by simp only [List.nil_append]; rfl,
          (digit_lt_sixteen _ (by omega)).2.2.1, (digit_lt_sixteen _ (by omega)).2.1,
          (digit_lt_sixteen _ (by omega)).2.2.2⟩

/-- One iteration of the loop of `parseIPv6` on the text of a group: the group is
stored, and what follows decides how the loop goes on. -/
theorem parseIPv6Loop_group (n g : Nat) (hg : g < 65536) (rest : GoString) (ip : List Nat)
    (e : Option Nat) (hlen : ip.length < 16) :
    (rest = [] ∨ ∃ t, rest = ':' :: t) →
    parseIPv6Loop (n + 1) (appendHex g ++ rest) ip e =
      match rest with
      | [] => some ([], ip ++ [g / 256 % 256, g % 256], e)
      | [_] => none
      | _ :: c1 :: s2 =>
        if c1 = ':' then
          if e.isSome then none
          else
            match s2 with
            | [] => some ([], ip ++ [g / 256 % 256, g % 256],
                some (ip ++ [g / 256 % 256, g % 256]).length)
            | _ :: _ => parseIPv6Loop n s2 (ip ++ [g / 256 % 256, g % 256])
                (some (ip ++ [g / 256 % 256, g % 256]).length)
        else parseIPv6Loop n (c1 :: s2) (ip ++ [g / 256 % 256, g % 256]) e := by
  intro hrest
  obtain ⟨off, hoff, hh⟩ := hexLoop_appendHex g hg rest hrest
  simp only [parseIPv6Loop]
  rw [if_neg (by simpa using hlen), hh]
  simp only
  rw [if_neg (by omega)]
  rcases hrest with rfl | ⟨t, rfl⟩
  · simp
  · simp only [List.head?_cons, Option.some.injEq]
    rw [if_neg (by decide)]
    cases t with
    | nil => simp
    | cons c1 s2 =>
      simp only [ne_eq, not_true_eq_false, if_false]

theorem parseIPv6Loop_group_end (n g : Nat) (hg : g < 65536) (ip : List Nat)
    (e : Option Nat) (hlen : ip.length < 16) :
    parseIPv6Loop (n + 1) (appendHex g) ip e =
      some ([], ip ++ [g / 256 % 256, g % 256], e) := by
  have := parseIPv6Loop_group n g hg [] ip e hlen (Or.inl rfl)
  simpa using this

theorem parseIPv6Loop_group_colon (n g : Nat) (hg : g < 65536) (c1 : Char) (s2 : GoString)
    (ip : List Nat) (e : Option Nat) (hlen : ip.length < 16) (hc : c1 ≠ ':') :
    parseIPv6Loop (n + 1) (appendHex g ++ ':' :: c1 :: s2) ip e =
      parseIPv6Loop n (c1 :: s2) (ip ++ [g / 256 % 256, g % 256]) e := by
  have := parseIPv6Loop_group n g hg (':' :: c1 :: s2) ip e hlen (Or.inr ⟨_, rfl⟩)
  rw [this]
  simp only [if_neg hc]

theorem parseIPv6Loop_group_ellipsis_end (n g : Nat) (hg : g < 65536)
    (ip : List Nat) (hlen : ip.length < 16) :
    parseIPv6Loop (n + 1) (appendHex g ++ [':', ':']) ip none =
      some ([], ip ++ [g / 256 % 256, g % 256], some (ip.length + 2)) := by
  have := parseIPv6Loop_group n g hg [':', ':'] ip none hlen (Or.inr ⟨_, rfl⟩)
  rw [this]
  simp

theorem parseIPv6Loop_group_ellipsis (n g : Nat) (hg : g < 65536) (c : Char) (t : GoString)
    (ip : List Nat) (hlen : ip.length < 16) :
    parseIPv6Loop (n + 1) (appendHex g ++ ':' :: ':' :: c :: t) ip none =
      parseIPv6Loop n (c :: t) (ip ++ [g / 256 % 256, g % 256]) (some (ip.length + 2)) := by
  have := parseIPv6Loop_group n g hg (':' :: ':' :: c :: t) ip none hlen (Or.inr ⟨_, rfl⟩)
  rw [this]
  simp

/-! ## Reading back a run of groups -/

theorem wfIP_getD_lt (ip : List Nat) (h : wfIP ip) (k : Nat) : ip.getD k 0 < 256 := by
  rw [List.getD_eq_getElem?_getD]
  by_cases hk : k < ip.length
  · rw [List.getElem?_eq_getElem hk]
    exact h.2 _ (List.getElem_mem _)
  · rw [List.getElem?_eq_none (by omega)]
    simp

theorem v6u16_lt (ip : List Nat) (h : wfIP ip) (i : Nat) : v6u16 ip i < 65536 := by
  have h1 := wfIP_getD_lt ip h (2 * i)
  have h2 := wfIP_getD_lt ip h (2 * i + 1)
  simp only [v6u16]
  omega

/-- The two bytes the parser stores for a group are the two bytes of the address. -/
theorem group_bytes (ip : List Nat) (h : wfIP ip) (i : Nat) (hi : i < 8) :
    [v6u16 ip i / 256 % 256, v6u16 ip i % 256] = (ip.drop (2 * i)).take 2 := by
  have h1 := wfIP_getD_lt ip h (2 * i)
  have h2 := wfIP_getD_lt ip h (2 * i + 1)
  have hl := h.1
  have e1 : v6u16 ip i / 256 % 256 = ip.getD (2 * i) 0 := by
    simp only [v6u16]; omega
  have e2 : v6u16 ip i % 256 = ip.getD (2 * i + 1) 0 := by
    simp only [v6u16]; omega
  rw [e1, e2]
  apply List.ext_getElem
  · simp only [List.length_cons, List.length_nil, List.length_take, List.length_drop]
    omega
  · intro k hk1 hk2
    simp only [List.length_cons, List.length_singleton, List.length_nil] at hk1
    have hk : k = 0 ∨ k = 1 := by omega
    rcases hk with rfl | rfl
    · simp [List.getD_eq_getElem?_getD, List.getElem?_eq_getElem (show 2 * i < ip.length by omega)]
    · simp [List.getD_eq_getElem?_getD,
        List.getElem?_eq_getElem (show 2 * i + 1 < ip.length by omega)]

theorem take_drop_succ (ip : List Nat) (i m : Nat) :
    (ip.drop (2 * i)).take 2 ++ (ip.drop (2 * (i + 1))).take (2 * m) =
      (ip.drop (2 * i)).take (2 * (m + 1)) := by
  have : ip.drop (2 * (i + 1)) = (ip.drop (2 * i)).drop 2 := by
    rw [List.drop_drop, show 2 * (i + 1) = 2 * i + 2 by omega]
  rw [this, show 2 * (m + 1) = 2 + 2 * m by omega, List.take_add]

/-- Reading the groups `i .. i+m` to the end of the text. -/
theorem parseIPv6Loop_groups_end (ip : List Nat) (h : wfIP ip) (m : Nat) :
    ∀ (i d : Nat) (acc : List Nat) (e : Option Nat),
      i + m + 1 ≤ 8 → acc.length + 2 * (m + 1) ≤ 16 →
      parseIPv6Loop (m + 1 + d) (appendHex (v6u16 ip i) ++ colonHex ip (i + 1) m) acc e =
        some ([], acc ++ (ip.drop (2 * i)).take (2 * (m + 1)), e) := by
  induction m with
  | zero =>
    intro i d acc e hi hacc
    simp only [colonHex, zero_add, List.append_nil]
    rw [show 1 + d = d + 1 by omega,
      parseIPv6Loop_group_end d _ (v6u16_lt ip h i) acc e (by omega),
      group_bytes ip h i (by omega)]
  | succ m ih =>
    intro i d acc e hi hacc
    obtain ⟨c, t, hct, hc, -, -⟩ := appendHex_eq_cons (v6u16 ip (i + 1)) (v6u16_lt ip h (i + 1))
    have hstep := parseIPv6Loop_group_colon (m + 1 + d) _ (v6u16_lt ip h i) c
      (t ++ colonHex ip (i + 1 + 1) m) acc e (by omega) hc
    rw [← List.cons_append, ← hct] at hstep
    simp only [colonHex, List.cons_append]
    rw [show m + 1 + 1 + d = (m + 1 + d) + 1 by omega, hstep,
      ih (i + 1) d _ e (by omega) (by simp; omega),
      group_bytes ip h i (by omega), List.append_assoc, take_drop_succ]

/-- Reading the groups `i .. i+m` up to an ellipsis that ends the text. -/
theorem parseIPv6Loop_groups_ellipsis_end (ip : List Nat) (h : wfIP ip) (m : Nat) :
    ∀ (i d : Nat) (acc : List Nat),
      i + m + 1 ≤ 8 → acc.length + 2 * (m + 1) ≤ 16 →
      parseIPv6Loop (m + 1 + d)
          (appendHex (v6u16 ip i) ++ (colonHex ip (i + 1) m ++ [':', ':'])) acc none =
        some ([], acc ++ (ip.drop (2 * i)).take (2 * (m + 1)),
            some (acc.length + 2 * (m + 1))) := by
  induction m with
  | zero =>
    intro i d acc hi hacc
    simp only [colonHex, zero_add, List.nil_append]
    rw [show 1 + d = d + 1 by omega,
      parseIPv6Loop_group_ellipsis_end d _ (v6u16_lt ip h i) acc (by omega),
      group_bytes ip h i (by omega)]
  | succ m ih =>
    intro i d acc hi hacc
    obtain ⟨c, t, hct, hc, -, -⟩ := appendHex_eq_cons (v6u16 ip (i + 1)) (v6u16_lt ip h (i + 1))
    have hstep := parseIPv6Loop_group_colon (m + 1 + d) _ (v6u16_lt ip h i) c
      (t ++ (colonHex ip (i + 1 + 1) m ++ [':', ':'])) acc none (by omega) hc
    rw [← List.cons_append, ← hct] at hstep
    simp only [colonHex, List.cons_append, List.append_assoc]
    rw [show m + 1 + 1 + d = (m + 1 + d) + 1 by omega, hstep,
      ih (i + 1) d _ (by omega) (by simp; omega),
      group_bytes ip h i (by omega), List.append_assoc, take_drop_succ]
    have hl := h.1
    have : (acc ++ List.take 2 (List.drop (2 * i) ip)).length + 2 * (m + 1) =
        acc.length + 2 * (m + 1 + 1) := by
      simp only [List.length_append, List.length_take, List.length_drop]
      omega
    rw [this]

/-- Reading the groups `i .. i+m` up to an ellipsis that is followed by more text. -/
theorem parseIPv6Loop_groups_ellipsis (ip : List Nat) (h : wfIP ip) (m : Nat) :
    ∀ (i d : Nat) (acc : List Nat) (c0 : Char) (t0 : GoString),
      i + m + 1 ≤ 8 → acc.length + 2 * (m + 1) ≤ 16 →
      parseIPv6Loop (m + 1 + d)
          (appendHex (v6u16 ip i) ++ (colonHex ip (i + 1) m ++ ':' :: ':' :: c0 :: t0))
          acc none =
        parseIPv6Loop d (c0 :: t0) (acc ++ (ip.drop (2 * i)).take (2 * (m + 1)))
            (some (acc.length + 2 * (m + 1))) := by
  induction m with
  | zero =>
    intro i d acc c0 t0 hi hacc
    simp only [colonHex, zero_add, List.nil_append]
    rw [show 1 + d = d + 1 by omega,
      parseIPv6Loop_group_ellipsis d _ (v6u16_lt ip h i) c0 t0 acc (by omega),
      group_bytes ip h i (by omega)]
  | succ m ih =>
    intro i d acc c0 t0 hi hacc
    obtain ⟨c, t, hct, hc, -, -⟩ := appendHex_eq_cons (v6u16 ip (i + 1)) (v6u16_lt ip h (i + 1))
    have hstep := parseIPv6Loop_group_colon (m + 1 + d) _ (v6u16_lt ip h i) c
      (t ++ (colonHex ip (i + 1 + 1) m ++ ':' :: ':' :: c0 :: t0)) acc none (by omega) hc
    rw [← List.cons_append, ← hct] at hstep
    simp only [colonHex, List.cons_append, List.append_assoc]
    rw [show m + 1 + 1 + d = (m + 1 + d) + 1 by omega, hstep,
      ih (i + 1) d _ c0 t0 (by omega) (by simp; omega),
      group_bytes ip h i (by omega), List.append_assoc, take_drop_succ]
    have hl := h.1
    have : (acc ++ List.take 2 (List.drop (2 * i) ip)).length + 2 * (m + 1) =
        acc.length + 2 * (m + 1 + 1) := by
      simp only [List.length_append, List.length_take, List.length_drop]
      omega
    rw [this]

/-! ## The shape of an IPv6 text -/

theorem zeroRunEnd_spec (ip : List Nat) (n : Nat) :
    ∀ j, j ≤ zeroRunEnd ip n j ∧ (j ≤ 8 → zeroRunEnd ip n j ≤ 8) ∧
      ∀ k, j ≤ k → k < zeroRunEnd ip n j → v6u16 ip k = 0 := by
  induction n with
  | zero =>
    intro j
    simp only [zeroRunEnd]
    exact ⟨le_refl _, fun h => h, fun k h1 h2 => by omega⟩
  | succ n ih =>
    intro j
    simp only [zeroRunEnd]
    split
    · rename_i hj
      obtain ⟨h1, h2, h3⟩ := ih (j + 1)
      refine ⟨by omega, fun _ => h2 (by omega), ?_⟩
      intro k hk1 hk2
      by_cases hk : k = j
      · rw [hk]; exact hj.2
      · exact h3 k (by omega) hk2
    · exact ⟨le_refl _, fun h => h, fun k h1 h2 => by omega⟩

theorem zeroSearchStep_inv (ip : List Nat) (z : Nat × Nat) (i : Nat) (hi : i < 8)
    (hz : zeroRun ip z) : zeroRun ip (zeroSearchStep ip z i) := by
  simp only [zeroSearchStep]
  obtain ⟨h1, h2, h3⟩ := zeroRunEnd_spec ip 8 i
  split
  · rename_i hl
    right
    have h8 := h2 (by omega)
    refine ⟨?_, h8, h3⟩
    simp only
    omega
  · exact hz

theorem zeroSearch_inv (ip : List Nat) : zeroRun ip (zeroSearch ip) := by
  have key : ∀ (l : List Nat) (z : Nat × Nat), (∀ i ∈ l, i < 8) → zeroRun ip z →
      zeroRun ip (l.foldl (zeroSearchStep ip) z) := by
    intro l
    induction l with
    | nil => intro z _ hz; exact hz
    | cons a l ih =>
      intro z hl hz
      simp only [List.foldl_cons]
      exact ih _ (fun i hi => hl i (List.mem_cons_of_mem _ hi))
        (zeroSearchStep_inv ip z a (hl a (List.mem_cons_self _ _)) hz)
  exact key _ _ (fun i hi => List.mem_range.1 hi) (Or.inl rfl)

/-- The second loop of `appendTo6` past the ellipsis: the remaining groups, each after
a colon. -/
theorem appendTo6Loop_tail (ip : List Nat) (zs ze : Nat) (m : Nat) :
    ∀ (i d : Nat) (ret : GoString), 0 < i → i + m = 8 →
      (∀ k, i ≤ k → k < 8 → k ≠ zs) →
      appendTo6Loop ip zs ze (m + d) i ret = ret ++ colonHex ip i m := by
  induction m with
  | zero =>
    intro i d ret hi him hk
    have : i = 8 := by omega
    subst this
    cases d <;> simp [appendTo6Loop, colonHex]
  | succ m ih =>
    intro i d ret hi him hk
    rw [show m + 1 + d = (m + d) + 1 by omega]
    simp only [appendTo6Loop]
    rw [if_neg (by omega), if_neg (hk i (le_refl _) (by omega)), if_pos hi,
      ih (i + 1) d _ (by omega) (by omega) (fun k h1 h2 => hk k (by omega) h2)]
    simp [colonHex]

/-- The second loop of `appendTo6` before the ellipsis. -/
theorem appendTo6Loop_head (ip : List Nat) (zs ze : Nat) (m : Nat) :
    ∀ (i d : Nat) (ret : GoString), 0 < i → i + m = zs → zs < 8 →
      appendTo6Loop ip zs ze (m + d) i ret =
        appendTo6Loop ip zs ze d zs (ret ++ colonHex ip i m) := by
  induction m with
  | zero =>
    intro i d ret hi him hz
    have : i = zs := by omega
    subst this
    simp [colonHex]
  | succ m ih =>
    intro i d ret hi him hz
    rw [show m + 1 + d = (m + d) + 1 by omega]
    simp only [appendTo6Loop]
    rw [if_neg (by omega), if_neg (by omega), if_pos hi,
      ih (i + 1) d _ (by omega) (by omega) hz]
    simp [colonHex]

/-- The second loop of `appendTo6` at the ellipsis. -/
theorem appendTo6Loop_at_ellipsis (ip : List Nat) (zs ze d : Nat) (ret : GoString)
    (hz : zs < 8) (hze : zs < ze) (h8 : ze ≤ 8) (hd : 8 ≤ ze + d) :
    appendTo6Loop ip zs ze (d + 1) zs ret =
      ret ++ [':', ':'] ++
        (if ze = 8 then [] else appendHex (v6u16 ip ze) ++ colonHex ip (ze + 1) (7 - ze)) := by
  simp only [appendTo6Loop]
  rw [if_neg (by omega)]
  simp only [if_true]
  by_cases he : ze = 8
  · simp [he]
  · simp only [if_neg he]
    rw [if_neg (by omega)]
    have := appendTo6Loop_tail ip zs ze (7 - ze) (ze + 1) (d - (7 - ze))
      (ret ++ [':', ':'] ++ appendHex (v6u16 ip ze)) (by omega) (by omega)
      (fun k h1 _ => by omega)
    rw [show 7 - ze + (d - (7 - ze)) = d by omega] at this
    rw [this]
    simp

/-- The first iteration of the second loop when the address does not start with the
ellipsis. -/
theorem appendTo6Loop_first (ip : List Nat) (zs ze n : Nat) (h : zs ≠ 0) :
    appendTo6Loop ip zs ze (n + 1) 0 [] =
      appendTo6Loop ip zs ze n 1 ([] ++ appendHex (v6u16 ip 0)) := by
  simp only [appendTo6Loop]
  rw [if_neg (by omega), if_neg (by omega), if_neg (by omega)]

/-- The text of an address without a run of two zero groups. -/
theorem string6_no_ellipsis (ip : List Nat) (h : zeroSearch ip = (255, 255)) :
    string6 ip = appendHex (v6u16 ip 0) ++ colonHex ip 1 7 := by
  simp only [string6, h]
  rw [show (8 : Nat) = 7 + 1 from rfl, appendTo6Loop_first ip 255 255 7 (by omega)]
  have := appendTo6Loop_tail ip 255 255 7 1 0 ([] ++ appendHex (v6u16 ip 0)) (by omega)
    (by omega) (fun k _ h2 => by omega)
  simpa using this

/-- The text of an address with an ellipsis for the groups `zs .. ze-1`. -/
theorem string6_ellipsis (ip : List Nat) (zs ze : Nat) (h : zeroSearch ip = (zs, ze))
    (h2 : zs + 2 ≤ ze) (h8 : ze ≤ 8) :
    string6 ip =
      (if zs = 0 then [] else appendHex (v6u16 ip 0) ++ colonHex ip 1 (zs - 1)) ++
        [':', ':'] ++
        (if ze = 8 then [] else appendHex (v6u16 ip ze) ++ colonHex ip (ze + 1) (7 - ze)) := by
  simp only [string6, h]
  by_cases h0 : zs = 0
  · subst h0
    rw [appendTo6Loop_at_ellipsis ip 0 ze 7 [] (by omega) (by omega) h8 (by omega)]
    simp
  · simp only [if_neg h0]
    rw [show (8 : Nat) = 7 + 1 from rfl, appendTo6Loop_first ip zs ze 7 h0]
    have := appendTo6Loop_head ip zs ze (zs - 1) 1 (8 - zs) ([] ++ appendHex (v6u16 ip 0))
      (by omega) (by omega) (by omega)
    rw [show zs - 1 + (8 - zs) = 7 by omega] at this
    rw [this, show 8 - zs = (7 - zs) + 1 by omega,
      appendTo6Loop_at_ellipsis ip zs ze (7 - zs) _ (by omega) (by omega) h8 (by omega)]
    simp

/-! ## Reading back an IPv6 text -/

theorem zero_run_getElem? (ip : List Nat) (h : wfIP ip) (zs ze : Nat) (h8 : ze ≤ 8)
    (hzero : ∀ k, zs ≤ k → k < ze → v6u16 ip k = 0) (n : Nat) (h1 : 2 * zs ≤ n)
    (h2 : n < 2 * ze) : ip[n]? = some 0 := by
  have hk := hzero (n / 2) (by omega) (by omega)
  simp only [v6u16] at hk
  have hl := h.1
  have hn : n < ip.length := by omega
  rw [List.getElem?_eq_getElem hn]
  have e0 : ip.getD (2 * (n / 2)) 0 = 0 := by omega
  have e1 : ip.getD (2 * (n / 2) + 1) 0 = 0 := by omega
  rcases Nat.mod_two_eq_zero_or_one n with hm | hm
  · have : 2 * (n / 2) = n := by omega
    rw [this, List.getD_eq_getElem?_getD, List.getElem?_eq_getElem hn] at e0
    simpa using e0
  · have : 2 * (n / 2) + 1 = n := by omega
    rw [this, List.getD_eq_getElem?_getD, List.getElem?_eq_getElem hn] at e1
    simpa using e1

/-- An address is its bytes before a run of zero groups, the zero bytes of the run,
and its bytes after the run. -/
theorem rebuild_zero_run (ip : List Nat) (h : wfIP ip) (zs ze : Nat) (hz : zs ≤ ze)
    (h8 : ze ≤ 8) (hzero : ∀ k, zs ≤ k → k < ze → v6u16 ip k = 0) :
    ip.take (2 * zs) ++ (List.replicate (2 * (ze - zs)) 0 ++ ip.drop (2 * ze)) = ip := by
  have hl := h.1
  apply List.ext_getElem?
  intro n
  by_cases h1 : n < 2 * zs
  · rw [List.getElem?_append_left (by simp only [List.length_take]; omega),
      List.getElem?_take, if_pos h1]
  · have ht : (ip.take (2 * zs)).length = 2 * zs := by
      simp only [List.length_take]; omega
    rw [List.getElem?_append_right (by omega), ht]
    by_cases h2 : n < 2 * ze
    · rw [List.getElem?_append_left (by simp only [List.length_replicate]; omega),
        List.getElem?_replicate, if_pos (by omega),
        zero_run_getElem? ip h zs ze h8 hzero n (by omega) h2]
    · rw [List.getElem?_append_right (by simp only [List.length_replicate]; omega),
        List.length_replicate, List.getElem?_drop]
      congr 1
      omega

theorem take_two_ne_ellipsis (c : Char) (t : GoString) (hc : c ≠ ':') :
    (c :: t).take 2 ≠ [':', ':'] := by
  cases t with
  | nil => simp
  | cons d t => simp [hc]

theorem parseIPv6Finish_full (ip : List Nat) (h : ip.length = 16) :
    parseIPv6Finish ([], ip, none) = some ip := by
  simp [parseIPv6Finish, h]

theorem parseIPv6Finish_ellipsis (pre post : List Nat) (hlen : pre.length + post.length < 16) :
    parseIPv6Finish ([], pre ++ post, some pre.length) =
      some (pre ++ (List.replicate (16 - (pre.length + post.length)) 0 ++ post)) := by
  simp only [parseIPv6Finish, ne_eq, not_true_eq_false, if_false, List.length_append,
    if_pos hlen, List.take_left', List.drop_left', List.append_assoc]

theorem parseIPv6Addr_string6 (ip : List Nat) (h : wfIP ip) :
    parseIPv6Addr (string6 ip) = some ip := by
  have hl := h.1
  obtain ⟨c0, t0, hc0, hne0, -, -⟩ := appendHex_eq_cons (v6u16 ip 0) (v6u16_lt ip h 0)
  rcases zeroSearch_inv ip with hz | hinv
  · -- no ellipsis
    rw [string6_no_ellipsis ip hz]
    have hnot : (appendHex (v6u16 ip 0) ++ colonHex ip 1 7).take 2 ≠ [':', ':'] := by
      rw [hc0, List.cons_append]
      exact take_two_ne_ellipsis _ _ hne0
    simp only [parseIPv6Addr, if_neg hnot]
    have := parseIPv6Loop_groups_end ip h 7 0 0 [] none (by omega) (by simp)
    rw [show 7 + 1 + 0 = 8 from rfl] at this
    rw [this]
    simp only [Option.some_bind, List.nil_append, Nat.mul_zero, List.drop_zero]
    rw [List.take_of_length_le (by omega)]
    exact parseIPv6Finish_full ip hl
  · generalize hzs : zeroSearch ip = z at hinv
    obtain ⟨zs, ze⟩ := z
    obtain ⟨h2, h8, hzero⟩ := hinv
    simp only at h2 h8 hzero
    rw [string6_ellipsis ip zs ze hzs h2 h8]
    by_cases h0 : zs = 0
    · subst h0
      simp only [if_true, List.nil_append, List.cons_append]
      simp only [parseIPv6Addr, List.take_succ_cons, List.take_zero, if_true,
        List.drop_succ_cons, List.drop_zero]
      by_cases he : ze = 8
      · subst he
        simp only [if_true]
        have := rebuild_zero_run ip h 0 8 (by omega) (by omega) hzero
        simp only [Nat.mul_zero, List.take_zero, List.nil_append] at this
        rw [List.drop_of_length_le (by omega), List.append_nil] at this
        exact congrArg some this
      · simp only [if_neg he]
        obtain ⟨c1, t1, hc1, -, -, -⟩ := appendHex_eq_cons (v6u16 ip ze) (v6u16_lt ip h ze)
        rw [if_neg (by rw [hc1]; simp)]
        have := parseIPv6Loop_groups_end ip h (7 - ze) ze ze [] (some 0) (by omega)
          (by simp; omega)
        rw [show 7 - ze + 1 + ze = 8 by omega] at this
        have hdrop : List.take (2 * (7 - ze + 1)) (List.drop (2 * ze) ip) =
            List.drop (2 * ze) ip :=
          List.take_of_length_le (by simp only [List.length_drop]; omega)
        rw [this]
        simp only [Option.some_bind, List.nil_append]
        rw [hdrop]
        have hf := parseIPv6Finish_ellipsis [] (ip.drop (2 * ze))
          (by simp only [List.length_nil, List.length_drop]; omega)
        simp only [List.length_nil, List.nil_append, List.length_drop, zero_add] at hf
        rw [hf, show 16 - (ip.length - 2 * ze) = 2 * (ze - 0) by omega]
        have := rebuild_zero_run ip h 0 ze (by omega) h8 hzero
        simp only [Nat.mul_zero, List.take_zero, List.nil_append] at this
        rw [this]
    · simp only [if_neg h0]
      have hnot : ∀ rest : GoString,
          (appendHex (v6u16 ip 0) ++ rest).take 2 ≠ [':', ':'] := by
        intro rest
        rw [hc0, List.cons_append]
        exact take_two_ne_ellipsis _ _ hne0
      have htake : (ip.take (2 * zs)).length = 2 * zs := by
        simp only [List.length_take]; omega
      by_cases he : ze = 8
      · subst he
        simp only [if_true, List.append_nil, List.append_assoc]
        simp only [parseIPv6Addr, if_neg (hnot _)]
        have := parseIPv6Loop_groups_ellipsis_end ip h (zs - 1) 0 (8 - zs) []
          (by omega) (by simp; omega)
        rw [show zs - 1 + 1 + (8 - zs) = 8 by omega, show 0 + 1 = 1 from rfl] at this
        rw [this]
        simp only [Option.some_bind, List.nil_append, Nat.mul_zero, List.drop_zero,
          List.length_nil, zero_add]
        rw [show 2 * (zs - 1 + 1) = 2 * zs by omega]
        have hf := parseIPv6Finish_ellipsis (ip.take (2 * zs)) [] (by
          simp only [List.length_nil, htake]; omega)
        simp only [List.append_nil, htake, List.length_nil, Nat.add_zero] at hf
        rw [hf, show 16 - 2 * zs = 2 * (8 - zs) by omega]
        have := rebuild_zero_run ip h zs 8 (by omega) (by omega) hzero
        rw [List.drop_of_length_le (by omega), List.append_nil] at this
        rw [this]
      · simp only [if_neg he, List.append_assoc]
        obtain ⟨c1, t1, hc1, -, -, -⟩ := appendHex_eq_cons (v6u16 ip ze) (v6u16_lt ip h ze)
        simp only [parseIPv6Addr, if_neg (hnot _)]
        have hstep := parseIPv6Loop_groups_ellipsis ip h (zs - 1) 0 (8 - zs) [] c1
          (t1 ++ colonHex ip (ze + 1) (7 - ze)) (by omega) (by simp; omega)
        rw [← List.cons_append, ← hc1, show zs - 1 + 1 + (8 - zs) = 8 by omega,
          show 0 + 1 = 1 from rfl] at hstep
        simp only [List.singleton_append, List.cons_append, List.nil_append, Nat.mul_zero,
          List.drop_zero, List.length_nil, zero_add] at hstep ⊢
        rw [show 2 * (zs - 1 + 1) = 2 * zs by omega] at hstep
        rw [hstep]
        have := parseIPv6Loop_groups_end ip h (7 - ze) ze (ze - zs) (ip.take (2 * zs))
          (some (2 * zs)) (by omega) (by rw [htake]; omega)
        rw [show 7 - ze + 1 + (ze - zs) = 8 - zs by omega] at this
        have hdrop : List.take (2 * (7 - ze + 1)) (List.drop (2 * ze) ip) =
            List.drop (2 * ze) ip :=
          List.take_of_length_le (by simp only [List.length_drop]; omega)
        rw [this]
        simp only [Option.some_bind]
        rw [hdrop]
        have hf := parseIPv6Finish_ellipsis (ip.take (2 * zs)) (ip.drop (2 * ze)) (by
          simp only [htake, List.length_drop]; omega)
        simp only [htake, List.length_drop] at hf
        rw [hf, show 16 - (2 * zs + (ip.length - 2 * ze)) = 2 * (ze - zs) by omega,
          rebuild_zero_run ip h zs ze (by omega) h8 hzero]

/-! ## Parsing the text of an address gives the address back -/

theorem parseAddrScan_appendHex_colon (full : GoString) (g : Nat) (hg : g < 65536)
    (rest : GoString) :
    parseAddrScan full (appendHex g ++ ':' :: rest) = parseIPv6 full := by
  have step : ∀ (k : Nat) (t : GoString), k < 16 →
      parseAddrScan full (digit k :: t) = parseAddrScan full t := by
    intro k t hk
    obtain ⟨-, h1, h2, h3⟩ := digit_lt_sixteen k hk
    simp only [parseAddrScan]
    rw [if_neg h1, if_neg h2, if_neg h3]
  have colon : parseAddrScan full (':' :: rest) = parseIPv6 full := by
    simp [parseAddrScan]
  simp only [appendHex]
  by_cases h3 : g ≥ 0x1000
  · rw [if_pos h3, if_pos (by omega), if_pos (by omega)]
    simp only [List.singleton_append, List.cons_append, List.nil_append]
    rw [step _ _ (by omega), step _ _ (by omega), step _ _ (by omega), step _ _ (by omega),
      colon]
  · rw [if_neg h3]
    by_cases h2 : g ≥ 0x100
    · rw [if_pos h2, if_pos (by omega)]
      simp only [List.singleton_append, List.cons_append, List.nil_append]
      rw [step _ _ (by omega), step _ _ (by omega), step _ _ (by omega), colon]
    · rw [if_neg h2]
      by_cases h1 : g ≥ 0x10
      · rw [if_pos h1]
        simp only [List.singleton_append, List.cons_append, List.nil_append]
        rw [step _ _ (by omega), step _ _ (by omega), colon]
      · rw [if_neg h1]
        simp only [List.singleton_append, List.cons_append, List.nil_append]
        rw [step _ _ (by omega), colon]

/-- An IPv6 text starts with a colon, or with a group that a colon follows. -/
theorem string6_start (ip : List Nat) :
    ∃ rest, string6 ip = ':' :: rest ∨ string6 ip = appendHex (v6u16 ip 0) ++ ':' :: rest := by
  rcases zeroSearch_inv ip with hz | hinv
  · rw [string6_no_ellipsis ip hz]
    exact ⟨_, Or.inr rfl⟩
  · generalize hzs : zeroSearch ip = z at hinv
    obtain ⟨zs, ze⟩ := z
    obtain ⟨h2, h8, -⟩ := hinv
    simp only at h2 h8
    rw [string6_ellipsis ip zs ze hzs h2 h8]
    by_cases h0 : zs = 0
    · subst h0
      simp only [if_true, List.nil_append, List.cons_append]
      exact ⟨_, Or.inl rfl⟩
    · simp only [if_neg h0, List.append_assoc]
      by_cases h1 : zs = 1
      · subst h1
        simp only [colonHex, List.nil_append, List.cons_append]
        exact ⟨_, Or.inr rfl⟩
      · obtain ⟨m, hm⟩ : ∃ m, zs - 1 = m + 1 := ⟨zs - 2, by omega⟩
        rw [hm]
        simp only [colonHex, List.cons_append, List.append_assoc]
        exact ⟨_, Or.inr rfl⟩

theorem ParseIP_string6 (ip : List Nat) (h : wfIP ip) : ParseIP (string6 ip) = some ip := by
  have hscan : ParseAddr (string6 ip) = parseIPv6 (string6 ip) := by
    obtain ⟨rest, hr | hr⟩ := string6_start ip
    · simp only [ParseAddr]
      conv => lhs; arg 2; rw [hr]
      simp [parseAddrScan]
    · simp only [ParseAddr]
      conv => lhs; arg 2; rw [hr]
      exact parseAddrScan_appendHex_colon _ _ (v6u16_lt ip h 0) _
  have hpct : indexByteString (string6 ip) '%' = none := by
    rw [indexByteString_eq_none]
    intro hm
    have := appendTo6Loop_inClass ip _ _ 8 0 [] (by simp) '%' hm
    revert this
    decide
  simp only [ParseIP, hscan, parseIPv6, splitZone, hpct, parseIPv6Addr_string6 ip h,
    Option.map_some', Addr.Zone, Addr.As16]
  simp

theorem list_length_four (l : List Nat) (h : l.length = 4) :
    ∃ a b c d, l = [a, b, c, d] := by
  match l, h with
  | [a, b, c, d], _ => exact ⟨a, b, c, d, rfl⟩

/-- Parsing the text of a 16-byte address gives the address back. -/
theorem ParseIP_IPString (ip : List Nat) (h : wfIP ip) : ParseIP (IPString ip) = some ip := by
  simp only [IPString]
  cases h4 : To4 ip with
  | none => exact ParseIP_string6 ip h
  | some p4 =>
    simp only [To4] at h4
    split at h4
    · rename_i hc
      simp only [Option.some.injEq] at h4
      subst h4
      have hl := h.1
      obtain ⟨a, b, c, d, habcd⟩ := list_length_four (ip.drop 12)
        (by simp only [List.length_drop]; omega)
      have hb : ∀ x ∈ ip.drop 12, x < 256 := fun x hx => h.2 x (List.mem_of_mem_drop hx)
      rw [habcd] at hb ⊢
      simp only [List.mem_cons, List.mem_singleton, List.mem_nil_iff, or_false,
        forall_eq_or_imp, forall_eq] at hb
      rw [ParseIP_string4 a b c d hb.1 hb.2.1 hb.2.2.1 hb.2.2.2]
      congr 1
      rw [← habcd]
      apply List.ext_getElem?
      intro n
      obtain ⟨hc1, hc2, hc3⟩ := hc
      by_cases h10 : n < 10
      · have e1 : (List.take 10 ip)[n]? = ip[n]? := by
          rw [List.getElem?_take, if_pos h10]
        rw [← e1, hc1]
        simp only [List.append_assoc]
        rw [List.getElem?_append_left (by simpa using h10)]
      · simp only [List.append_assoc]
        rw [List.getElem?_append_right (by simp only [List.length_replicate]; omega),
          List.length_replicate]
        by_cases h12 : n < 12
        · have hn : n = 10 ∨ n = 11 := by omega
          rw [List.getD_eq_getElem?_getD, List.getElem?_eq_getElem (by omega)] at hc2 hc3
          simp only [Option.getD_some] at hc2 hc3
          rcases hn with rfl | rfl
          · simp [List.getElem?_eq_getElem (show 10 < ip.length by omega), hc2]
          · simp [List.getElem?_eq_getElem (show 11 < ip.length by omega), hc3]
        · obtain ⟨k, rfl⟩ : ∃ k, n = 12 + k := ⟨n - 12, by omega⟩
          rw [show 12 + k - 10 = k + 2 by omega]
          simp only [List.cons_append, List.nil_append, List.getElem?_cons_succ,
            List.getElem?_drop]
    · simp at h4

/-! ## The resolved text is canonical -/

theorem IPString_eq_loopback_text_iff (ip : List Nat) (h : wfIP ip) :
    IPString ip = "::1".toList ↔ ip = loopback6 := by
  constructor
  · intro he
    have h1 := ParseIP_IPString ip h
    rw [he] at h1
    have h2 : ParseIP "::1".toList = some loopback6 := by decide
    rw [h2] at h1
    exact (Option.some.inj h1).symm
  · rintro rfl
    decide

theorem normalised_eq (ip : List Nat) (h : wfIP ip) :
    normalised ip = if ip = loopback6 then "127.0.0.1".toList else IPString ip := by
  simp only [normalised]
  by_cases hl : ip = loopback6
  · rw [if_pos hl, if_pos ((IPString_eq_loopback_text_iff ip h).2 hl)]
  · rw [if_neg hl, if_neg (fun he => hl ((IPString_eq_loopback_text_iff ip h).1 he))]

theorem ParseIP_nil : ParseIP [] = none := by decide

theorem ParseIP_normalised (ip : List Nat) (h : wfIP ip) :
    normalised ip ≠ [] ∧ ∃ ip2, ParseIP (normalised ip) = some ip2 := by
  have key : ∃ ip2, ParseIP (normalised ip) = some ip2 := by
    simp only [normalised]
    split
    · exact ⟨List.replicate 10 0 ++ [255, 255, 127, 0, 0, 1], by decide⟩
    · exact ⟨ip, ParseIP_IPString ip h⟩
  refine ⟨?_, key⟩
  intro he
  obtain ⟨ip2, h2⟩ := key
  rw [he, ParseIP_nil] at h2
  simp at h2

theorem resolveCandidate_valid (c : GoString) :
    ((resolveCandidate c).2 = none →
      (resolveCandidate c).1 ≠ [] ∧ ∃ ip, ParseIP (resolveCandidate c).1 = some ip) ∧
    ((resolveCandidate c).2 ≠ none → (resolveCandidate c).1 = []) := by
  cases h : ParseIP c with
  | none =>
    rw [resolveCandidate_none c h]
    simp [ipNotFound]
  | some ip =>
    rw [resolveCandidate_some c ip h]
    exact ⟨fun _ => ParseIP_normalised ip (ParseIP_wf c ip h), fun hne => absurd rfl hne⟩

theorem stringsSplit_getLast (a X : GoString) (hX : ',' ∉ X) :
    (stringsSplit ',' (a ++ ',' :: X)).getLast? = some X := by
  induction a with
  | nil =>
    simp only [List.nil_append, stringsSplit, if_true, stringsSplit_of_no_sep _ _ hX]
    rfl
  | cons c a ih =>
    show (stringsSplit ',' (c :: (a ++ ',' :: X))).getLast? = some X
    simp only [stringsSplit]
    split
    · cases hs : stringsSplit ',' (a ++ ',' :: X) with
      | nil => exact absurd hs (stringsSplit_ne_nil _ _)
      | cons p ps =>
        rw [hs] at ih
        simpa [List.getLast?_cons_cons] using ih
    · cases hs : stringsSplit ',' (a ++ ',' :: X) with
      | nil => exact absurd hs (stringsSplit_ne_nil _ _)
      | cons p ps =>
        rw [hs] at ih
        simp only
        cases ps with
        | nil =>
          -- a single piece cannot be: the text holds a comma
          exfalso
          have hj := stringsSplit_intercalate ',' (a ++ ',' :: X)
          have hn := stringsSplit_no_sep ',' (a ++ ',' :: X)
          rw [hs] at hj hn
          simp only [List.intercalate, List.intersperse, List.flatten_cons, List.flatten_nil,
            List.append_nil] at hj
          exact hn p (List.mem_singleton.2 rfl) (hj ▸ by simp)
        | cons q qs =>
          simpa [List.getLast?_cons_cons] using ih

/-! ## Formatting -/

theorem Sprintf_cons_of_ne (c : Char) (format : GoString) (args : List GoString)
    (hc : c ≠ '%') : Sprintf (c :: format) args = c :: Sprintf format args := by
  rw [Sprintf]
  · intro f h
    exact absurd h hc
  · intro f a as h
    exact absurd h hc

theorem Sprintf_verb (format : GoString) (arg : GoString) (args : List GoString) :
    Sprintf ('%' :: 's' :: format) (arg :: args) = arg ++ Sprintf format args := by
  rw [Sprintf]

/-- A stretch of the format without '%' is copied. -/
theorem Sprintf_append_of_no_verb (s rest : GoString) (args : List GoString)
    (hs : '%' ∉ s) : Sprintf (s ++ rest) args = s ++ Sprintf rest args := by
  induction s with
  | nil => rfl
  | cons c s ih =>
    simp only [List.mem_cons, not_or] at hs
    rw [List.cons_append, Sprintf_cons_of_ne c _ _ (Ne.symm hs.1), ih hs.2, List.cons_append]

theorem Sprintf_no_verb (s : GoString) (hs : '%' ∉ s) : Sprintf s [] = s := by
  have := Sprintf_append_of_no_verb s [] [] hs
  rw [List.append_nil] at this
  rw [this]
  simp [Sprintf]

/-- A format with one verb: the text before, the argument, the text after. -/
theorem Sprintf_one (pre post arg : GoString) (h1 : '%' ∉ pre) (h2 : '%' ∉ post) :
    Sprintf (pre ++ "%s".toList ++ post) [arg] = pre ++ arg ++ post := by
  rw [List.append_assoc, Sprintf_append_of_no_verb _ _ _ h1]
  show pre ++ Sprintf ('%' :: 's' :: post) [arg] = _
  rw [Sprintf_verb, Sprintf_no_verb _ h2, List.append_assoc]

set_option maxRecDepth 100000 in
theorem html_no_verb : '%' ∉ htmlHead ∧ '%' ∉ htmlMiddle ∧ '%' ∉ htmlTail ∧
    '%' ∉ ipTableHead ∧ '%' ∉ ipTableTail := by
  decide

/-- The page is the fixed text around the title and the content. -/
theorem getHtmlDefault_eq (title content : GoString) :
    getHtmlDefault title content =
      htmlHead ++ title ++ htmlMiddle ++ content ++ htmlTail := by
  obtain ⟨h1, h2, h3, -, -⟩ := html_no_verb
  simp only [getHtmlDefault, List.append_assoc]
  rw [Sprintf_append_of_no_verb _ _ _ h1]
  show htmlHead ++ Sprintf ('%' :: 's' :: (htmlMiddle ++ ("%s".toList ++ htmlTail))) _ = _
  rw [Sprintf_verb, Sprintf_append_of_no_verb _ _ _ h2]
  show htmlHead ++ (title ++ (htmlMiddle ++ Sprintf ('%' :: 's' :: htmlTail) [content])) = _
  rw [Sprintf_verb, Sprintf_no_verb _ h3]

/-! ## What a successful result of `getIp` is made of -/

theorem resolveCandidate_ok (c s : GoString) (h : resolveCandidate c = (s, none)) :
    ∃ x, ParseIP c = some x ∧ s = normalised x := by
  cases hp : ParseIP c with
  | none =>
    rw [resolveCandidate_none c hp] at h
    simp [ipNotFound] at h
  | some x =>
    rw [resolveCandidate_some c x hp] at h
    exact ⟨x, rfl, (Prod.mk.inj h).1.symm⟩

/-- A successful result of `getIp` is the normalised text of a 16-byte address. -/
theorem getIp_ok (b : Bool) (req : Request) (s : GoString) (h : getIp b req = (s, none)) :
    ∃ x, wfIP x ∧ s = normalised x := by
  by_cases hc : forwardedCandidate b req = []
  · cases hs : SplitHostPort req.RemoteAddr with
    | error e =>
      rw [getIp_of_candidate_nil_error b req e hc hs] at h
      simp at h
    | ok hp =>
      obtain ⟨host, port⟩ := hp
      rw [getIp_of_candidate_nil_ok b req host port hc hs] at h
      obtain ⟨x, h1, h2⟩ := resolveCandidate_ok _ _ h
      exact ⟨x, ParseIP_wf _ _ h1, h2⟩
  · rw [getIp_of_candidate_ne_nil b req hc] at h
    obtain ⟨x, h1, h2⟩ := resolveCandidate_ok _ _ h
    exact ⟨x, ParseIP_wf _ _ h1, h2⟩

theorem normalised_inClass (x : List Nat) : ∀ c ∈ normalised x, inClass c = true := by
  simp only [normalised]
  split
  · decide
  · exact IPString_inClass x

theorem inClass_safe (c : Char) (h : inClass c = true) :
    c ∉ unsafeChars ∧ c ≠ ',' ∧ c ≠ '%' ∧ htmlSafe c = true ∧ c.toNat < 0x80 := by
  have key : ∀ d ∈ "abcdef0123456789.:".toList,
      d ∉ unsafeChars ∧ d ≠ ',' ∧ d ≠ '%' ∧ htmlSafe d = true ∧ d.toNat < 0x80 := by decide
  exact key c ((inClass_iff c).1 h)

/-- A text of class characters is its own JSON string body: nothing is escaped. -/
theorem appendString_of_inClass (s : GoString) (h : ∀ c ∈ s, inClass c = true) :
    appendString s = '"' :: s ++ ['"'] := by
  have key : s.flatMap jsonEscape = s := by
    induction s with
    | nil => rfl
    | cons c s ih =>
      obtain ⟨-, -, -, h1, h2⟩ := inClass_safe c (h c (List.mem_cons_self _ _))
      rw [List.flatMap_cons, ih (fun d hd => h d (List.mem_cons_of_mem _ hd))]
      simp only [jsonEscape, if_pos h2, h1, if_true]
      rfl
  simp only [appendString, key]

theorem forwardedCandidate_congr (b : Bool) (req1 req2 : Request)
    (h : req1.Header.Get "X-Forwarded-For".toList = req2.Header.Get "X-Forwarded-For".toList) :
    forwardedCandidate b req1 = forwardedCandidate b req2 := by
  simp only [forwardedCandidate, h]

/-- A forwarded-for value without comma is its own single element. -/
theorem forwardedCandidate_single (b : Bool) (req : Request) (X : GoString)
    (hv : req.Header.Get "X-Forwarded-For".toList = X) (hX : ',' ∉ X) :
    forwardedCandidate b req = X.filter inClass := by
  rw [forwardedCandidate_eq, hv, stringsSplit_of_no_sep _ _ hX]
  simp

theorem filter_inClass_self (X : GoString) (h : ∀ c ∈ X, inClass c = true) :
    X.filter inClass = X :=
  List.filter_eq_self.2 h

theorem forwardedCandidate_of_class (b : Bool) (req : Request) (X : GoString)
    (hv : req.Header.Get "X-Forwarded-For".toList = X) (hX : ∀ c ∈ X, inClass c = true) :
    forwardedCandidate b req = X := by
  rw [forwardedCandidate_single b req X hv (fun hm => (inClass_safe _ (hX _ hm)).2.1 rfl),
    filter_inClass_self X hX]

/-! ## The handlers on a fresh writer -/

/-- The not-found response on a fresh writer. -/
theorem NotFound_newRecorder :
    NotFound newRecorder =
      { code := some 404, body := "404 page not found".toList ++ ['\n'] } := by
  decide

theorem handleIndex_of_ok (b : Bool) (res : ResponseWriter) (req : Request) (ip : GoString)
    (hp : req.Path = [] ∨ req.Path = "/".toList) (hip : getIp b req = (ip, none)) :
    handleIndex b res req =
      if isCurl req then res.Write (Sprintf "%s\n".toList [ip])
      else if wantsJson req then
        res.Write (EncoderEncode [("ipAddress".toList, .str ip)])
      else renderIpHtmlResponse res ip := by
  have : ¬ (req.Path ≠ [] ∧ req.Path ≠ "/".toList) := by
    rcases hp with h | h <;> simp [h]
  simp only [handleIndex, if_neg this, hip]

theorem handleIndex_of_error (b : Bool) (res : ResponseWriter) (req : Request)
    (s : GoString) (err : GoError)
    (hp : req.Path = [] ∨ req.Path = "/".toList) (hip : getIp b req = (s, some err)) :
    handleIndex b res req =
      (res.WriteHeader 500).Write (Sprintf "Error: %s.\n".toList [err.Error]) := by
  have : ¬ (req.Path ≠ [] ∧ req.Path ≠ "/".toList) := by
    rcases hp with h | h <;> simp [h]
  simp only [handleIndex, if_neg this, hip]

theorem Sprintf_line (s : GoString) : Sprintf "%s\n".toList [s] = s ++ ['\n'] := by
  have := Sprintf_one [] ['\n'] s (by simp) (by decide)
  simpa using this

theorem Sprintf_error (m : GoString) :
    Sprintf "Error: %s.\n".toList [m] = "Error: ".toList ++ m ++ ".\n".toList := by
  exact Sprintf_one "Error: ".toList ".\n".toList m (by decide) (by decide)

theorem encodeMap_ipAddress (ip : GoString) (h : ∀ c ∈ ip, inClass c = true) :
    EncoderEncode [("ipAddress".toList, .str ip)] =
      "\x7b\"ipAddress\":\"".toList ++ ip ++ "\"\x7d\n".toList := by
  simp only [EncoderEncode, encodeMap, sortByKey, List.foldr, insertByKey, List.map,
    joinMembers, encodeValue, appendString_of_inClass ip h]
  have : appendString "ipAddress".toList = "\"ipAddress\"".toList := by decide
  rw [this]
  simp

theorem ip_infix_page (title ip : GoString) :
    ip <:+: getHtmlDefault title (ipTableHead ++ ip ++ ipTableTail) := by
  rw [getHtmlDefault_eq]
  refine ⟨htmlHead ++ title ++ htmlMiddle ++ ipTableHead, ipTableTail ++ htmlTail, ?_⟩
  simp only [List.append_assoc]

set_option maxRecDepth 100000 in
theorem aboutText_eq :
    Sprintf aboutTextFormat
      [ingfo.Name, ingfo.Description, ingfo.Version, ingfo.Author, ingfo.AuthorEmail,
        ingfo.Repo] = aboutText := by
  decide

/-! ## Resolving a resolved address -/

/-- The address 2001:db8::1. -/
theorem upperCase_parse :
    ParseIP "2001:DB8::1".toList =
      some [0x20, 0x01, 0x0d, 0xb8, 0, 0, 0, 0, 0, 0, 0, 0, 0, 0, 0, 1] ∧
    normalised [0x20, 0x01, 0x0d, 0xb8, 0, 0, 0, 0, 0, 0, 0, 0, 0, 0, 0, 1] =
      "2001:db8::1".toList ∧
    "2001:DB8::1".toList.filter inClass = "2001:8::1".toList ∧
    resolveCandidate "2001:8::1".toList = ("2001:8::1".toList, none) := by
  decide

theorem resolveCandidate_normalised (x : List Nat) (h : wfIP x) :
    resolveCandidate (normalised x) = (normalised x, none) := by
  by_cases hl : IPString x = "::1".toList
  · have : normalised x = "127.0.0.1".toList := by simp only [normalised, if_pos hl]
    rw [this]
    decide
  · have hn : normalised x = IPString x := by simp only [normalised, if_neg hl]
    rw [hn, resolveCandidate_some _ x (ParseIP_IPString x h), hn]

/-! ## Content negotiation -/

/-- C9: `isCurl` is true exactly when some value stored under the header name
"User-Agent" contains the substring "curl"; it is false without a User-Agent header,
false for the Mozilla value of the test, and depends on the User-Agent entries only. -/
theorem isCurl_iff_user_agent_contains_curl :
    (∀ req : Request, isCurl req = true ↔
      ∃ entry ∈ req.Header, entry.1 = "User-Agent".toList ∧
        ∃ v ∈ entry.2, "curl".toList <:+: v) ∧
    (∀ req : Request, (∀ entry ∈ req.Header, entry.1 ≠ "User-Agent".toList) →
      isCurl req = false) ∧
    (∀ (others : Header) (remote path : GoString),
      (∀ entry ∈ others, entry.1 ≠ "User-Agent".toList) →
      isCurl ⟨("User-Agent".toList, [mozilla]) :: others, remote, path⟩ = false) ∧
    (∀ req req2 : Request,
      req.Header.filter (fun entry => entry.1 = "User-Agent".toList) =
        req2.Header.filter (fun entry => entry.1 = "User-Agent".toList) →
      isCurl req = isCurl req2) := by
  have hiff : ∀ req : Request, isCurl req = true ↔
      ∃ entry ∈ req.Header, entry.1 = "User-Agent".toList ∧
        ∃ v ∈ entry.2, "curl".toList <:+: v := fun req => headerAny_iff _ _ _
  refine ⟨hiff, ?_, ?_, ?_⟩
  · intro req hno
    rw [← Bool.not_eq_true, hiff]
    rintro ⟨e, he, hk, -⟩
    exact hno e he hk
  · intro others remote path hno
    rw [← Bool.not_eq_true, hiff]
    rintro ⟨e, he, hk, v, hv, hc⟩
    simp only [List.mem_cons] at he
    rcases he with rfl | he
    · simp only [List.mem_singleton] at hv
      subst hv
      revert hc
      rw [← stringsContains_iff]
      decide
    · exact hno e he hk
  · intro req req2 hf
    have key : ∀ r : Request, isCurl r = true ↔
        ∃ entry ∈ r.Header.filter (fun entry => entry.1 = "User-Agent".toList),
          ∃ v ∈ entry.2, "curl".toList <:+: v := by
      intro r
      rw [hiff]
      constructor
      · rintro ⟨e, he, hk, hv⟩
        exact ⟨e, List.mem_filter.2 ⟨he, by simpa using hk⟩, hv⟩
      · rintro ⟨e, he, hv⟩
        rw [List.mem_filter] at he
        exact ⟨e, he.1, by simpa using he.2, hv⟩
    rw [Bool.eq_iff_iff, key, key, hf]

/-- C10: `wantsJson` is true exactly when some value stored under the header name
"Accept" contains the substring "application/json"; it is false without an Accept
header, false for the value "*/*", and depends on the Accept entries only. -/
theorem wantsJson_iff_accept_contains_json :
    (∀ req : Request, wantsJson req = true ↔
      ∃ entry ∈ req.Header, entry.1 = "Accept".toList ∧
        ∃ v ∈ entry.2, "application/json".toList <:+: v) ∧
    (∀ req : Request, (∀ entry ∈ req.Header, entry.1 ≠ "Accept".toList) →
      wantsJson req = false) ∧
    (∀ (others : Header) (remote path : GoString),
      (∀ entry ∈ others, entry.1 ≠ "Accept".toList) →
      wantsJson ⟨("Accept".toList, ["*/*".toList]) :: others, remote, path⟩ = false) ∧
    (∀ req req2 : Request,
      req.Header.filter (fun entry => entry.1 = "Accept".toList) =
        req2.Header.filter (fun entry => entry.1 = "Accept".toList) →
      wantsJson req = wantsJson req2) := by
  have hiff : ∀ req : Request, wantsJson req = true ↔
      ∃ entry ∈ req.Header, entry.1 = "Accept".toList ∧
        ∃ v ∈ entry.2, "application/json".toList <:+: v := fun req => headerAny_iff _ _ _
  refine ⟨hiff, ?_, ?_, ?_⟩
  · intro req hno
    rw [← Bool.not_eq_true, hiff]
    rintro ⟨e, he, hk, -⟩
    exact hno e he hk
  · intro others remote path hno
    rw [← Bool.not_eq_true, hiff]
    rintro ⟨e, he, hk, v, hv, hc⟩
    simp only [List.mem_cons] at he
    rcases he with rfl | he
    · simp only [List.mem_singleton] at hv
      subst hv
      revert hc
      rw [← stringsContains_iff]
      decide
    · exact hno e he hk
  · intro req req2 hf
    have key : ∀ r : Request, wantsJson r = true ↔
        ∃ entry ∈ r.Header.filter (fun entry => entry.1 = "Accept".toList),
          ∃ v ∈ entry.2, "application/json".toList <:+: v := by
      intro r
      rw [hiff]
      constructor
      · rintro ⟨e, he, hk, hv⟩
        exact ⟨e, List.mem_filter.2 ⟨he, by simpa using hk⟩, hv⟩
      · rintro ⟨e, he, hv⟩
        rw [List.mem_filter] at he
        exact ⟨e, he.1, by simpa using he.2, hv⟩
    rw [Bool.eq_iff_iff, key, key, hf]

/-! ## Candidate selection and failure -/

/-- C3, counterexample: with the header "10.0.0.1, 192.168.0.1" the flag changes the
result; behind a proxy `getIp` resolves the first element, not the last. -/
theorem two_elements_behind_proxy_differs :
    getIp true twoElementRequest = ("10.0.0.1".toList, none) ∧
    getIp false twoElementRequest = ("192.168.0.1".toList, none) := by
  constructor <;> decide

/-- C3, amended: for a forwarded-for header with exactly two comma-separated elements
`A,X`, `getIp` behind a proxy uses the second-to-last element `A` (sanitised), and
without a proxy the last element `X`; a non-empty candidate alone decides the result. -/
theorem two_elements_candidate (req : Request) (A X : GoString)
    (hv : req.Header.Get "X-Forwarded-For".toList = A ++ ',' :: X)
    (hA : ',' ∉ A) (hX : ',' ∉ X) :
    forwardedCandidate true req = A.filter inClass ∧
    forwardedCandidate false req = X.filter inClass ∧
    (A.filter inClass ≠ [] → getIp true req = resolveCandidate (A.filter inClass)) ∧
    (X.filter inClass ≠ [] → getIp false req = resolveCandidate (X.filter inClass)) := by
  have hs : stringsSplit ',' (req.Header.Get "X-Forwarded-For".toList) = [A, X] := by
    rw [hv, stringsSplit_append_sep _ _ _ hA, stringsSplit_of_no_sep _ _ hX]
  have h1 : forwardedCandidate true req = A.filter inClass := by
    rw [forwardedCandidate_eq, hs]; simp
  have h2 : forwardedCandidate false req = X.filter inClass := by
    rw [forwardedCandidate_eq, hs]; simp
  refine ⟨h1, h2, ?_, ?_⟩
  · intro hne
    rw [getIp_of_candidate_ne_nil _ _ (by rw [h1]; exact hne), h1]
  · intro hne
    rw [getIp_of_candidate_ne_nil _ _ (by rw [h2]; exact hne), h2]

/-- C3, amended, at the header "10.0.0.1, 192.168.0.1". -/
theorem two_elements_candidate_witness :
    forwardedCandidate true twoElementRequest = "10.0.0.1".toList.filter inClass ∧
    forwardedCandidate false twoElementRequest = " 192.168.0.1".toList.filter inClass ∧
    ("10.0.0.1".toList.filter inClass ≠ [] →
      getIp true twoElementRequest = resolveCandidate ("10.0.0.1".toList.filter inClass)) ∧
    (" 192.168.0.1".toList.filter inClass ≠ [] →
      getIp false twoElementRequest =
        resolveCandidate (" 192.168.0.1".toList.filter inClass)) :=
  two_elements_candidate twoElementRequest "10.0.0.1".toList " 192.168.0.1".toList
    (by decide) (by decide) (by decide)

/-- C4: the pieces `L` of the forwarded-for value are its comma split (joining them
with commas gives the value back and no piece holds a comma); the candidate is the
second-to-last piece when the flag is set and `L` has more than one piece, the last
piece otherwise, with exactly the characters of `[a-f0-9.:]` kept, in order; and a
non-empty candidate alone decides the outcome of `getIp`: its normalised form when
it parses as an IP, the error "IP not found" otherwise. -/
theorem forwarded_candidate_selection (b : Bool) (req : Request) :
    (stringsSplit ',' (req.Header.Get "X-Forwarded-For".toList) ≠ [] ∧
      [','].intercalate (stringsSplit ',' (req.Header.Get "X-Forwarded-For".toList)) =
        req.Header.Get "X-Forwarded-For".toList ∧
      ∀ piece ∈ stringsSplit ',' (req.Header.Get "X-Forwarded-For".toList), ',' ∉ piece) ∧
    (∀ c : Char, inClass c = true ↔ c ∈ "abcdef0123456789.:".toList) ∧
    forwardedCandidate b req =
      (if b = true ∧ 1 < (stringsSplit ',' (req.Header.Get "X-Forwarded-For".toList)).length
        then (stringsSplit ',' (req.Header.Get "X-Forwarded-For".toList)).dropLast.getLast?.getD []
        else (stringsSplit ',' (req.Header.Get "X-Forwarded-For".toList)).getLast?.getD []).filter
        inClass ∧
    (forwardedCandidate b req ≠ [] →
      (∀ ip, ParseIP (forwardedCandidate b req) = some ip →
        getIp b req = (normalised ip, none)) ∧
      (ParseIP (forwardedCandidate b req) = none →
        getIp b req = ([], some ipNotFound))) := by
  refine ⟨⟨stringsSplit_ne_nil _ _, stringsSplit_intercalate _ _, stringsSplit_no_sep _ _⟩,
    inClass_iff, forwardedCandidate_eq b req, ?_⟩
  intro hne
  rw [getIp_of_candidate_ne_nil b req hne]
  exact ⟨fun ip h => resolveCandidate_some _ ip h, fun h => resolveCandidate_none _ h⟩

/-- C5: when the address `getIp` selects (the non-empty sanitised forwarded-for
element, or the host of `RemoteAddr` on fallback) parses to the IPv6 loopback,
`getIp` returns "127.0.0.1" with no error; and `getIp` never returns "::1". -/
theorem loopback_resolves_to_ipv4_loopback (b : Bool) (req : Request) :
    (forwardedCandidate b req ≠ [] →
      ParseIP (forwardedCandidate b req) = some loopback6 →
      getIp b req = ("127.0.0.1".toList, none)) ∧
    (∀ host port, forwardedCandidate b req = [] →
      SplitHostPort req.RemoteAddr = .ok (host, port) →
      ParseIP host = some loopback6 →
      getIp b req = ("127.0.0.1".toList, none)) ∧
    (getIp b req).1 ≠ "::1".toList := by
  have hl : normalised loopback6 = "127.0.0.1".toList := by decide
  refine ⟨?_, ?_, getIp_fst_ne_loopback_text b req⟩
  · intro hne hp
    rw [getIp_of_candidate_ne_nil b req hne, resolveCandidate_some _ _ hp, hl]
  · intro host port hnil hs hp
    rw [getIp_of_candidate_nil_ok b req host port hnil hs, resolveCandidate_some _ _ hp, hl]

/-- C5 at the forwarded element "0:0:0:0:0:0:0:1" and at the transport address
"[::1]:80". -/
theorem loopback_resolves_witness :
    getIp false loopbackRequest = ("127.0.0.1".toList, none) ∧
    getIp true loopbackRemoteRequest = ("127.0.0.1".toList, none) :=
  ⟨(loopback_resolves_to_ipv4_loopback false loopbackRequest).1 (by decide) (by decide),
   (loopback_resolves_to_ipv4_loopback true loopbackRemoteRequest).2.1
     "::1".toList "80".toList (by decide) (by rfl) (by decide)⟩

/-- C7: `getIp` returns an error exactly when (a) the sanitised forwarded-for
candidate is empty and `RemoteAddr` does not split into host and port, or (b) the
final candidate (the non-empty sanitised element, else the host of `RemoteAddr`) is
no valid IP, and then the error is "IP not found"; the `RemoteAddr` fallback is taken
exactly when the sanitised candidate is empty. -/
theorem getIp_error_iff (b : Bool) (req : Request) :
    ((getIp b req).2 ≠ none ↔
      (forwardedCandidate b req = [] ∧ ∃ e, SplitHostPort req.RemoteAddr = .error e) ∨
      (forwardedCandidate b req ≠ [] ∧ ParseIP (forwardedCandidate b req) = none) ∨
      (forwardedCandidate b req = [] ∧ ∃ host port,
        SplitHostPort req.RemoteAddr = .ok (host, port) ∧ ParseIP host = none)) ∧
    (forwardedCandidate b req ≠ [] → ParseIP (forwardedCandidate b req) = none →
      getIp b req = ([], some ipNotFound)) ∧
    (∀ host port, forwardedCandidate b req = [] →
      SplitHostPort req.RemoteAddr = .ok (host, port) → ParseIP host = none →
      getIp b req = ([], some ipNotFound)) ∧
    ipNotFound.Error = "IP not found".toList ∧
    (forwardedCandidate b req ≠ [] →
      getIp b req = resolveCandidate (forwardedCandidate b req)) ∧
    (∀ e, forwardedCandidate b req = [] → SplitHostPort req.RemoteAddr = .error e →
      getIp b req = ([], some (.addrError e))) ∧
    (∀ host port, forwardedCandidate b req = [] →
      SplitHostPort req.RemoteAddr = .ok (host, port) →
      getIp b req = resolveCandidate host) := by
  refine ⟨?_, ?_, ?_, rfl, getIp_of_candidate_ne_nil b req, ?_, ?_⟩
  · by_cases h : forwardedCandidate b req = []
    · cases hs : SplitHostPort req.RemoteAddr with
      | error e =>
        rw [getIp_of_candidate_nil_error b req e h hs]
        simp [h]
      | ok hp =>
        obtain ⟨host, port⟩ := hp
        rw [getIp_of_candidate_nil_ok b req host port h hs]
        cases hp : ParseIP host with
        | none => rw [resolveCandidate_none _ hp]; simp [h, hp]
        | some ip => rw [resolveCandidate_some _ _ hp]; simp [h, hp]
    · rw [getIp_of_candidate_ne_nil b req h]
      cases hp : ParseIP (forwardedCandidate b req) with
      | none => rw [resolveCandidate_none _ hp]; simp [h]
      | some ip => rw [resolveCandidate_some _ _ hp]; simp [h]
  · intro hne hp
    rw [getIp_of_candidate_ne_nil b req hne, resolveCandidate_none _ hp]
  · intro host port hnil hs hp
    rw [getIp_of_candidate_nil_ok b req host port hnil hs, resolveCandidate_none _ hp]
  · intro e hnil hs
    exact getIp_of_candidate_nil_error b req e hnil hs
  · intro host port hnil hs
    exact getIp_of_candidate_nil_ok b req host port hnil hs

/-! ## Resolution of the transport address and of a forwarded address -/

/-- C1: for a request without X-Forwarded-For header whose `RemoteAddr` is `H:P`,
with `H` a text `ParseIP` accepts (in brackets when it holds a colon, as an IPv6
literal does) and `P` a port (a text without colon or bracket), `getIp` succeeds for
either value of the flag and returns the canonical text of the parsed address, except
that the IPv6 loopback is returned as "127.0.0.1". -/
theorem getIp_remote_addr_normalised (b : Bool) (req : Request) (H P : GoString)
    (ip : List Nat)
    (hx : ∀ entry ∈ req.Header, entry.1 ≠ "X-Forwarded-For".toList)
    (hH : ParseIP H = some ip) (hP : ':' ∉ P ∧ '[' ∉ P ∧ ']' ∉ P)
    (hr : req.RemoteAddr = joinHostPort H P) :
    getIp b req = (if ip = loopback6 then "127.0.0.1".toList else IPString ip, none) := by
  rw [getIp_of_remote_addr b req H P ip hx hH hP hr, normalised_eq ip (ParseIP_wf H ip hH)]

/-- C1 at the transport address "[2001:0db8::1001]:80" of `TestGetIp`. -/
theorem getIp_remote_addr_normalised_witness :
    getIp true ipv6RemoteRequest = ("2001:db8::1001".toList, none) :=
  getIp_remote_addr_normalised true ipv6RemoteRequest "2001:0db8::1001".toList "80".toList
    [0x20, 0x01, 0x0d, 0xb8, 0, 0, 0, 0, 0, 0, 0, 0, 0, 0, 0x10, 0x01]
    (by decide) (by decide) (by decide) (by decide)

/-- C2, the code at the third forwarded case of `TestGetIp`: "::1" is a valid address
text and the forwarded-for header is "<RemoteAddr>, ::1" with the flag off, yet `getIp`
returns "127.0.0.1" where the claim, and the assertion `ip == mockForwardedIp` of the
test, require "::1". -/
theorem forwarded_loopback_not_returned :
    ParseIP "::1".toList = some loopback6 ∧
    forwardedLoopbackRequest.Header.Get "X-Forwarded-For".toList =
      forwardedLoopbackRequest.RemoteAddr ++ ", ".toList ++ "::1".toList ∧
    getIp false forwardedLoopbackRequest = ("127.0.0.1".toList, none) ∧
    (getIp false forwardedLoopbackRequest).1 ≠ "::1".toList := by
  decide

/-- What the code does for a forwarded canonical text: when the forwarded-for header
is "<RemoteAddr>, X" with `X` the text `IP.String` gives for a 16-byte address and the
flag is off, `getIp` succeeds with `X`, but with "127.0.0.1" when `X` is "::1". -/
theorem getIp_forwarded_canonical (req : Request) (ip : List Nat) (hip : wfIP ip)
    (hv : req.Header.Get "X-Forwarded-For".toList =
      req.RemoteAddr ++ ", ".toList ++ IPString ip) :
    getIp false req = (if ip = loopback6 then "127.0.0.1".toList else IPString ip, none) := by
  have hcls := IPString_inClass ip
  have hcomma : ',' ∉ IPString ip := by
    intro hm
    have := hcls ',' hm
    revert this
    decide
  have hlast : (stringsSplit ',' (req.Header.Get "X-Forwarded-For".toList)).getLast? =
      some (' ' :: IPString ip) := by
    rw [hv]
    have := stringsSplit_getLast req.RemoteAddr (' ' :: IPString ip) (by
      simp only [List.mem_cons, not_or]
      exact ⟨by decide, hcomma⟩)
    simpa using this
  have hcand : forwardedCandidate false req = IPString ip := by
    rw [forwardedCandidate_eq, if_neg (by simp), hlast]
    simp only [Option.getD_some, List.filter_cons]
    rw [if_neg (by decide), List.filter_eq_self]
    exact hcls
  have hparse := ParseIP_IPString ip hip
  have hne : forwardedCandidate false req ≠ [] := by
    rw [hcand]
    intro he
    rw [he, ParseIP_nil] at hparse
    simp at hparse
  rw [getIp_of_candidate_ne_nil false req hne, hcand, resolveCandidate_some _ ip hparse,
    normalised_eq ip hip]

/-- The second forwarded case of `TestGetIp`, where code and test agree. -/
theorem getIp_forwarded_canonical_witness :
    getIp false forwardedRequest = ("192.168.0.1".toList, none) :=
  getIp_forwarded_canonical forwardedRequest
    [0, 0, 0, 0, 0, 0, 0, 0, 0, 0, 255, 255, 192, 168, 0, 1]
    ⟨by decide, by decide⟩ (by decide)

/-- C6: when `getIp` returns no error the returned text is non-empty and `ParseIP`
accepts it; when it returns an error the returned text is empty. -/
theorem getIp_result_valid (b : Bool) (req : Request) :
    ((getIp b req).2 = none →
      (getIp b req).1 ≠ [] ∧ ∃ ip, ParseIP (getIp b req).1 = some ip) ∧
    ((getIp b req).2 ≠ none → (getIp b req).1 = []) := by
  by_cases h : forwardedCandidate b req = []
  · cases hs : SplitHostPort req.RemoteAddr with
    | error e =>
      rw [getIp_of_candidate_nil_error b req e h hs]
      simp
    | ok hp =>
      obtain ⟨host, port⟩ := hp
      rw [getIp_of_candidate_nil_ok b req host port h hs]
      exact resolveCandidate_valid host
  · rw [getIp_of_candidate_ne_nil b req h]
    exact resolveCandidate_valid _

/-- The transport address "[::1]:80" without forwarded-for header: the host is the
valid address text "::1", and `getIp` returns "127.0.0.1". -/
theorem remote_loopback_not_returned :
    SplitHostPort loopbackRemoteRequest.RemoteAddr = .ok ("::1".toList, "80".toList) ∧
    ParseIP "::1".toList = some loopback6 ∧
    getIp false loopbackRemoteRequest = ("127.0.0.1".toList, none) ∧
    (getIp false loopbackRemoteRequest).1 ≠ "::1".toList := by
  refine ⟨rfl, ?_, ?_, ?_⟩ <;> decide

/-- What the code does for a transport address with a canonical host: without
X-Forwarded-For header and with a host in the text form `IP.String` gives (in brackets
when it holds a colon), `SplitHostPort` yields that host and `getIp` returns it
character for character, but "127.0.0.1" for the host "::1". -/
theorem getIp_remote_canonical (b : Bool) (req : Request) (P : GoString) (ip : List Nat)
    (hip : wfIP ip)
    (hx : ∀ entry ∈ req.Header, entry.1 ≠ "X-Forwarded-For".toList)
    (hP : ':' ∉ P ∧ '[' ∉ P ∧ ']' ∉ P)
    (hr : req.RemoteAddr = joinHostPort (IPString ip) P) :
    SplitHostPort req.RemoteAddr = .ok (IPString ip, P) ∧
    getIp b req = (if ip = loopback6 then "127.0.0.1".toList else IPString ip, none) := by
  have hparse := ParseIP_IPString ip hip
  constructor
  · rw [hr]
    exact SplitHostPort_joinHostPort _ P ip hparse hP
  · rw [getIp_of_remote_addr b req _ P ip hx hparse hP hr, normalised_eq ip hip]

/-- The transport address "172.17.0.4:80" of `TestGetIp`, where code and test agree. -/
theorem getIp_remote_canonical_witness :
    SplitHostPort plainRemoteRequest.RemoteAddr = .ok ("172.17.0.4".toList, "80".toList) ∧
    getIp false plainRemoteRequest = ("172.17.0.4".toList, none) :=
  getIp_remote_canonical false plainRemoteRequest "80".toList
    [0, 0, 0, 0, 0, 0, 0, 0, 0, 0, 255, 255, 172, 17, 0, 4]
    ⟨by decide, by decide⟩ (by decide) (by decide) (by decide)

/-- C8, the code at the transport address "[2001:0db8::1001]:80" of `TestGetIp`, with
no forwarded-for header: splitting gives the valid host "2001:0db8::1001", yet `getIp`
returns "2001:db8::1001" where the claim, and the assertion `ip == expectedIp` of the
test, require the host character for character. -/
theorem remote_noncanonical_compacted :
    (∀ entry ∈ ipv6RemoteRequest.Header, entry.1 ≠ "X-Forwarded-For".toList) ∧
    SplitHostPort ipv6RemoteRequest.RemoteAddr = .ok ("2001:0db8::1001".toList, "80".toList) ∧
    ParseIP "2001:0db8::1001".toList ≠ none ∧
    getIp false ipv6RemoteRequest = ("2001:db8::1001".toList, none) ∧
    (getIp false ipv6RemoteRequest).1 ≠ "2001:0db8::1001".toList := by
  refine ⟨by decide, rfl, ?_, ?_, ?_⟩ <;> decide

/-! ## The HTML page -/

/-- C16: `getHtmlDefault` is injective in the title for a fixed content and in the
content for a fixed title, and never returns the empty string (so not for two empty
arguments either). -/
theorem getHtmlDefault_injective_each :
    (∀ c t1 t2 : GoString, t1 ≠ t2 → getHtmlDefault t1 c ≠ getHtmlDefault t2 c) ∧
    (∀ t c1 c2 : GoString, c1 ≠ c2 → getHtmlDefault t c1 ≠ getHtmlDefault t c2) ∧
    (∀ t c : GoString, getHtmlDefault t c ≠ []) := by
  refine ⟨?_, ?_, ?_⟩
  · intro c t1 t2 hne he
    rw [getHtmlDefault_eq, getHtmlDefault_eq] at he
    simp only [List.append_assoc] at he
    exact hne (List.append_cancel_right (List.append_cancel_left he))
  · intro t c1 c2 hne he
    rw [getHtmlDefault_eq, getHtmlDefault_eq] at he
    exact hne (List.append_cancel_left (List.append_cancel_right he))
  · intro t c he
    rw [getHtmlDefault_eq] at he
    simp only [List.append_assoc] at he
    have : htmlHead = [] := List.append_eq_nil.1 he |>.1
    revert this
    decide

/-! ## The responses of the handlers -/

/-- C11: for a path other than "" and "/", `handleIndex` answers 404 with the body
"404 page not found" and a newline, whatever the headers, the transport address and
the flag; for a path other than "/about", `handleAbout` answers the same. -/
theorem not_found_outside_routes (b : Bool) (req : Request) :
    (req.Path ≠ [] → req.Path ≠ "/".toList →
      (handleIndex b newRecorder req).status = 404 ∧
      (handleIndex b newRecorder req).body = "404 page not found\n".toList) ∧
    (req.Path ≠ "/about".toList →
      (handleAbout newRecorder req).status = 404 ∧
      (handleAbout newRecorder req).body = "404 page not found\n".toList) := by
  constructor
  · intro h1 h2
    simp only [handleIndex, if_pos (And.intro h1 h2), NotFound_newRecorder]
    exact ⟨rfl, rfl⟩
  · intro h
    simp only [handleAbout, if_pos h, NotFound_newRecorder]
    exact ⟨rfl, rfl⟩

/-- C11 at the paths of the tests and at "/about/". -/
theorem not_found_outside_routes_witness :
    (handleIndex false newRecorder ⟨[], "127.0.0.1:80".toList, "/entah".toList⟩).status = 404 ∧
    (handleAbout newRecorder ⟨[], "127.0.0.1:80".toList, "/about/entah".toList⟩).body =
      "404 page not found\n".toList ∧
    (handleAbout newRecorder ⟨[], "127.0.0.1:80".toList, "/about/".toList⟩).status = 404 :=
  ⟨((not_found_outside_routes false ⟨[], "127.0.0.1:80".toList, "/entah".toList⟩).1
      (by decide) (by decide)).1,
   ((not_found_outside_routes false ⟨[], "127.0.0.1:80".toList, "/about/entah".toList⟩).2
      (by decide)).2,
   ((not_found_outside_routes false ⟨[], "127.0.0.1:80".toList, "/about/".toList⟩).2
      (by decide)).1⟩

/-- C12: for a request to "" or "/" from curl for which `getIp` succeeds with `ip`,
`handleIndex` answers 200 with the body `ip` and one newline, whatever the Accept
header says. -/
theorem handleIndex_curl (b : Bool) (req : Request) (ip : GoString)
    (hp : req.Path = [] ∨ req.Path = "/".toList) (hc : isCurl req = true)
    (hip : getIp b req = (ip, none)) :
    (handleIndex b newRecorder req).status = 200 ∧
    (handleIndex b newRecorder req).body = ip ++ ['\n'] := by
  rw [handleIndex_of_ok b _ req ip hp hip]
  simp only [hc, if_true, Sprintf_line]
  exact ⟨rfl, rfl⟩

/-- C12 at the curl request of `TestHandleIndex` (body "127.0.0.1" and a newline) and
at a curl request that also accepts JSON. -/
theorem handleIndex_curl_witness :
    ((handleIndex false newRecorder curlIndexRequest).status = 200 ∧
      (handleIndex false newRecorder curlIndexRequest).body = "127.0.0.1\n".toList) ∧
    (wantsJson curlJsonIndexRequest = true ∧
      (handleIndex false newRecorder curlJsonIndexRequest).status = 200 ∧
      (handleIndex false newRecorder curlJsonIndexRequest).body = "127.0.0.1\n".toList) :=
  ⟨handleIndex_curl false curlIndexRequest "127.0.0.1".toList (by decide) (by decide)
      (by decide),
   by decide,
   handleIndex_curl false curlJsonIndexRequest "127.0.0.1".toList (by decide) (by decide)
      (by decide)⟩

/-- C13: for a request to "" or "/" not from curl for which `getIp` succeeds with
`ip`: when it accepts JSON, `handleIndex` answers 200 with the encoding of the map
with the single key "ipAddress" and the value `ip`, which is the text
`{"ipAddress":"ip"}` and a newline with `ip` unescaped; when it does not, the body is
the page `getHtmlDefault("IPKU", ...)` around the table that holds `ip`. -/
theorem handleIndex_json_html (b : Bool) (req : Request) (ip : GoString)
    (hp : req.Path = [] ∨ req.Path = "/".toList) (hc : isCurl req = false)
    (hip : getIp b req = (ip, none)) :
    (wantsJson req = true →
      (handleIndex b newRecorder req).status = 200 ∧
      (handleIndex b newRecorder req).body =
        EncoderEncode [("ipAddress".toList, .str ip)] ∧
      (handleIndex b newRecorder req).body =
        "\x7b\"ipAddress\":\"".toList ++ ip ++ "\"\x7d\n".toList) ∧
    (wantsJson req = false →
      (handleIndex b newRecorder req).status = 200 ∧
      (handleIndex b newRecorder req).body =
        getHtmlDefault "IPKU".toList (ipTableHead ++ ip ++ ipTableTail) ∧
      ip <:+: (handleIndex b newRecorder req).body) := by
  obtain ⟨x, -, hx⟩ := getIp_ok b req ip hip
  have hcls : ∀ c ∈ ip, inClass c = true := by
    rw [hx]; exact normalised_inClass x
  obtain ⟨-, -, -, h4, h5⟩ := html_no_verb
  rw [handleIndex_of_ok b _ req ip hp hip]
  constructor
  · intro hj
    simp only [hc, hj, if_true, Bool.false_eq_true, if_false]
    exact ⟨rfl, rfl, encodeMap_ipAddress ip hcls⟩
  · intro hj
    simp only [hc, hj, Bool.false_eq_true, if_false, renderIpHtmlResponse,
      Sprintf_one _ _ ip h4 h5]
    exact ⟨rfl, rfl, ip_infix_page _ ip⟩

/-- C13 at the JSON request and at the browser request of `TestHandleIndex`. -/
theorem handleIndex_json_html_witness :
    (handleIndex false newRecorder jsonIndexRequest).body =
      "\x7b\"ipAddress\":\"127.0.0.1\"\x7d\n".toList ∧
    (handleIndex false newRecorder browserIndexRequest).body =
      getHtmlDefault "IPKU".toList (ipTableHead ++ "127.0.0.1".toList ++ ipTableTail) :=
  ⟨((handleIndex_json_html false jsonIndexRequest "127.0.0.1".toList (by decide) (by decide)
      (by decide)).1 (by decide)).2.2,
   ((handleIndex_json_html false browserIndexRequest "127.0.0.1".toList (by decide)
      (by decide) (by decide)).2 (by decide)).2.1⟩

/-- C14: for a request to "" or "/" for which `getIp` fails with the error `err`,
`handleIndex` answers 500 with the body "Error: ", the message of `err`, a period and
a newline, whatever the headers. -/
theorem handleIndex_error (b : Bool) (req : Request) (s : GoString) (err : GoError)
    (hp : req.Path = [] ∨ req.Path = "/".toList)
    (hip : getIp b req = (s, some err)) :
    (handleIndex b newRecorder req).status = 500 ∧
    (handleIndex b newRecorder req).body = "Error: ".toList ++ err.Error ++ ".\n".toList := by
  rw [handleIndex_of_error b _ req s err hp hip]
  simp only [Sprintf_error]
  exact ⟨rfl, by simp [ResponseWriter.Write, ResponseWriter.WriteHeader, newRecorder]⟩

/-- C14 at a transport address without port and at a forwarded element that is no
address. -/
theorem handleIndex_error_witness :
    ((handleIndex false newRecorder noPortIndexRequest).status = 500 ∧
      (handleIndex false newRecorder noPortIndexRequest).body =
        "Error: address 127.0.0.1: missing port in address.\n".toList) ∧
    ((handleIndex false newRecorder badForwardedRequest).status = 500 ∧
      (handleIndex false newRecorder badForwardedRequest).body =
        "Error: IP not found.\n".toList) :=
  ⟨handleIndex_error false noPortIndexRequest []
      (.addrError ⟨missingPort, "127.0.0.1".toList⟩) (by decide) (by rfl),
   handleIndex_error false badForwardedRequest [] ipNotFound (by decide) (by decide)⟩

/-- C15: for a request to "/about" from curl, `handleAbout` answers 200 with the
five lines Name, Description, Version, Author and Repository, whatever the transport
address and the other headers. -/
theorem handleAbout_curl (req : Request) (hp : req.Path = "/about".toList)
    (hc : isCurl req = true) :
    (handleAbout newRecorder req).status = 200 ∧
    (handleAbout newRecorder req).body = aboutText := by
  have hs := aboutText_eq
  simp only [handleAbout, hp, ne_eq, not_true_eq_false, if_false, hc, if_true, hs]
  exact ⟨rfl, rfl⟩

/-- C15 at the curl request of `TestHandleAbout`. -/
theorem handleAbout_curl_witness :
    (handleAbout newRecorder curlAboutRequest).status = 200 ∧
    (handleAbout newRecorder curlAboutRequest).body = aboutText :=
  handleAbout_curl curlAboutRequest (by decide) (by decide)

/-! ## The resolved address as a text -/

/-- C17: every text `getIp` returns without error, on the forwarded path and on the
`RemoteAddr` fallback alike, consists of the characters 0-9, a-f, '.' and ':' only; so
it holds none of '<', '>', '&', the two quotes, the backslash and the newline, and its
JSON string is the text itself between quotes. -/
theorem getIp_result_chars (b : Bool) (req : Request) (ip : GoString)
    (h : getIp b req = (ip, none)) :
    (∀ c ∈ ip, c ∈ "0123456789abcdef.:".toList) ∧
    (∀ c ∈ ip, c ∉ unsafeChars) ∧
    appendString ip = '"' :: ip ++ ['"'] := by
  obtain ⟨x, -, hx⟩ := getIp_ok b req ip h
  have hcls : ∀ c ∈ ip, inClass c = true := by
    rw [hx]; exact normalised_inClass x
  refine ⟨?_, fun c hc => (inClass_safe c (hcls c hc)).1, appendString_of_inClass ip hcls⟩
  intro c hc
  have := (inClass_iff c).1 (hcls c hc)
  revert this
  generalize c = d
  have key : ∀ d ∈ "abcdef0123456789.:".toList, d ∈ "0123456789abcdef.:".toList := by decide
  exact key d

/-- C17 at the transport address "[2001:0db8::1001]:80", the fallback path. -/
theorem getIp_result_chars_witness :
    (∀ c ∈ "2001:db8::1001".toList, c ∈ "0123456789abcdef.:".toList) ∧
    (∀ c ∈ "2001:db8::1001".toList, c ∉ unsafeChars) ∧
    appendString "2001:db8::1001".toList = '"' :: "2001:db8::1001".toList ++ ['"'] :=
  getIp_result_chars false ipv6RemoteRequest "2001:db8::1001".toList (by decide)

/-- C18: when the sanitised forwarded-for candidate is non-empty, two requests with
the same X-Forwarded-For header and flag get the same result from `getIp`, whatever
their `RemoteAddr`; and a non-empty candidate that is no valid IP makes `getIp` fail
with "IP not found", with no fallback to the transport address. -/
theorem getIp_ignores_remote_addr (b : Bool) (req1 req2 : Request)
    (hh : req1.Header.Get "X-Forwarded-For".toList = req2.Header.Get "X-Forwarded-For".toList)
    (hne : forwardedCandidate b req1 ≠ []) :
    getIp b req1 = getIp b req2 ∧
    (ParseIP (forwardedCandidate b req1) = none →
      getIp b req1 = ([], some ipNotFound) ∧ getIp b req2 = ([], some ipNotFound)) := by
  have hc := forwardedCandidate_congr b req1 req2 hh
  have h1 := getIp_of_candidate_ne_nil b req1 hne
  have h2 := getIp_of_candidate_ne_nil b req2 (hc ▸ hne)
  refine ⟨by rw [h1, h2, hc], ?_⟩
  intro hp
  rw [h1, h2, ← hc, resolveCandidate_none _ hp]
  exact ⟨rfl, rfl⟩

/-- C18 at the forwarded element "abc" with the transport addresses "127.0.0.1:80"
and "[::1]:443", both valid. -/
theorem getIp_ignores_remote_addr_witness :
    ParseIP "127.0.0.1".toList ≠ none ∧
    SplitHostPort badForwardedRequest.RemoteAddr = .ok ("127.0.0.1".toList, "80".toList) ∧
    getIp false badForwardedRequest = ([], some ipNotFound) ∧
    getIp false { badForwardedRequest with RemoteAddr := "[::1]:443".toList } =
      ([], some ipNotFound) :=
  ⟨by decide, rfl,
   ((getIp_ignores_remote_addr false badForwardedRequest
      { badForwardedRequest with RemoteAddr := "[::1]:443".toList } rfl (by decide)).2
      (by decide)).1,
   ((getIp_ignores_remote_addr false badForwardedRequest
      { badForwardedRequest with RemoteAddr := "[::1]:443".toList } rfl (by decide)).2
      (by decide)).2⟩

/-- C19: "2001:DB8::1" is a valid address text with canonical form "2001:db8::1", yet
as the only forwarded-for element it makes `getIp` succeed with "2001:8::1", the
filter having deleted the upper-case digits; whereas a valid address text made of
characters of `[a-f0-9.:]` only is left unchanged by the filter and `getIp` returns
its normalised form. -/
theorem upper_case_hex_is_stripped :
    (ParseIP "2001:DB8::1".toList =
        some [0x20, 0x01, 0x0d, 0xb8, 0, 0, 0, 0, 0, 0, 0, 0, 0, 0, 0, 1] ∧
      normalised [0x20, 0x01, 0x0d, 0xb8, 0, 0, 0, 0, 0, 0, 0, 0, 0, 0, 0, 1] =
        "2001:db8::1".toList ∧
      ∀ (b : Bool) (req : Request),
        req.Header.Get "X-Forwarded-For".toList = "2001:DB8::1".toList →
        forwardedCandidate b req = "2001:8::1".toList ∧
        getIp b req = ("2001:8::1".toList, none) ∧
        (getIp b req).1 ≠
          normalised [0x20, 0x01, 0x0d, 0xb8, 0, 0, 0, 0, 0, 0, 0, 0, 0, 0, 0, 1]) ∧
    (∀ (b : Bool) (req : Request) (X : GoString) (ip : List Nat),
      req.Header.Get "X-Forwarded-For".toList = X → (∀ c ∈ X, inClass c = true) →
      ParseIP X = some ip →
      X.filter inClass = X ∧ forwardedCandidate b req = X ∧
        getIp b req = (normalised ip, none)) := by
  obtain ⟨u1, u2, u3, u4⟩ := upperCase_parse
  refine ⟨⟨u1, u2, ?_⟩, ?_⟩
  · intro b req hv
    have hc : forwardedCandidate b req = "2001:8::1".toList := by
      rw [forwardedCandidate_single b req _ hv (by decide), u3]
    have hg : getIp b req = ("2001:8::1".toList, none) := by
      rw [getIp_of_candidate_ne_nil b req (by rw [hc]; decide), hc, u4]
    refine ⟨hc, hg, ?_⟩
    rw [hg, u2]
    decide
  · intro b req X ip hv hX hp
    have hc := forwardedCandidate_of_class b req X hv hX
    have hne : X ≠ [] := by
      intro he
      rw [he, ParseIP_nil] at hp
      simp at hp
    refine ⟨filter_inClass_self X hX, hc, ?_⟩
    rw [getIp_of_candidate_ne_nil b req (by rw [hc]; exact hne), hc,
      resolveCandidate_some X ip hp]

/-- C19 at "2001:DB8::1" and at "2001:db8::1". -/
theorem upper_case_hex_is_stripped_witness :
    getIp true ⟨[("X-Forwarded-For".toList, ["2001:DB8::1".toList])], "10.0.0.1:80".toList, []⟩
      = ("2001:8::1".toList, none) ∧
    getIp true ⟨[("X-Forwarded-For".toList, ["2001:db8::1".toList])], "10.0.0.1:80".toList, []⟩
      = ("2001:db8::1".toList, none) :=
  ⟨(upper_case_hex_is_stripped.1.2.2 true
      ⟨[("X-Forwarded-For".toList, ["2001:DB8::1".toList])], "10.0.0.1:80".toList, []⟩
      rfl).2.1,
   (upper_case_hex_is_stripped.2 true
      ⟨[("X-Forwarded-For".toList, ["2001:db8::1".toList])], "10.0.0.1:80".toList, []⟩
      "2001:db8::1".toList [0x20, 0x01, 0x0d, 0xb8, 0, 0, 0, 0, 0, 0, 0, 0, 0, 0, 0, 1]
      rfl (by decide) (by decide)).2.2⟩

/-- C20: when `getIp` succeeds with `ip`, every request whose X-Forwarded-For header
is exactly `ip` resolves to `ip` again, for either value of the flag and any
`RemoteAddr`. -/
theorem getIp_idempotent (b : Bool) (req : Request) (ip : GoString)
    (h : getIp b req = (ip, none)) (b2 : Bool) (req2 : Request)
    (hv : req2.Header.Get "X-Forwarded-For".toList = ip) :
    getIp b2 req2 = (ip, none) := by
  obtain ⟨x, hw, hx⟩ := getIp_ok b req ip h
  subst hx
  have hc := forwardedCandidate_of_class b2 req2 _ hv (normalised_inClass x)
  rw [getIp_of_candidate_ne_nil b2 req2 (by rw [hc]; exact (ParseIP_normalised x hw).1), hc,
    resolveCandidate_normalised x hw]

/-- C20 at the result "127.0.0.1" for the transport address "[::1]:80". -/
theorem getIp_idempotent_witness :
    getIp true
      ⟨[("X-Forwarded-For".toList, ["127.0.0.1".toList])], "garbage".toList, []⟩ =
      ("127.0.0.1".toList, none) :=
  getIp_idempotent false loopbackRemoteRequest "127.0.0.1".toList (by decide) true
    ⟨[("X-Forwarded-For".toList, ["127.0.0.1".toList])], "garbage".toList, []⟩ rfl

end Ipku
